import Mathlib

/- Shallow embedding of the call-analyzer core pipeline
   (src/aws_services/transcription.py and src/aws_services/dynamodb.py)
   together with theorems settling the specification claims.
   Python strings are modelled as Lean strings (lists of code points),
   Python float values that only ever get compared appear as rationals,
   and the external sentiment classifier is an oracle parameter. -/

/- Sentiment labels returned by the external classifier, in the
   enumeration (dict-insertion) order used by analyze_sentiment. -/
inductive Sentiment where
  | POSITIVE
  | NEGATIVE
  | NEUTRAL
  | MIXED
deriving DecidableEq, Repr

/- String form of a label, as stored in the result dicts. -/
def sentimentStr : Sentiment → String
  | .POSITIVE => "POSITIVE"
  | .NEGATIVE => "NEGATIVE"
  | .NEUTRAL => "NEUTRAL"
  | .MIXED => "MIXED"

/- Position of a label in the insertion order POSITIVE, NEGATIVE,
   NEUTRAL, MIXED of the sentiment_counts dict. -/
def sentIdx : Sentiment → ℕ
  | .POSITIVE => 0
  | .NEGATIVE => 1
  | .NEUTRAL => 2
  | .MIXED => 3

/- transcription.py line 65: max_chunk_size = 4800. -/
def max_chunk_size : ℕ := 4800

/- Character-level chunking; one entry per index produced by
   range(0, len(l), 4800), each entry the slice l[i : i + 4800]. -/
def charChunks (l : List Char) : List (List Char) :=
  (List.range ((l.length + (max_chunk_size - 1)) / max_chunk_size)).map
    (fun i => (l.drop (i * max_chunk_size)).take max_chunk_size)

/- transcription.py line 66:
   chunks = [utterances[i:i + max_chunk_size]
             for i in range(0, len(utterances), max_chunk_size)]. -/
def pyChunks (s : String) : List String :=
  (charChunks s.data).map List.asString

theorem asString_append (a b : List Char) :
    a.asString ++ b.asString = (a ++ b).asString := rfl

theorem foldl_append_asString (L : List (List Char)) :
    ∀ a : List Char,
      List.foldl (· ++ ·) a.asString (L.map List.asString) = (a ++ L.flatten).asString := by
  induction L with
  | nil => intro a; simp
  | cons h t ih =>
      intro a
      simp only [List.map_cons, List.foldl_cons, asString_append, ih, List.flatten_cons]
      rw [List.append_assoc]

theorem join_map_asString (L : List (List Char)) :
    String.join (L.map List.asString) = L.flatten.asString := by
  have h := foldl_append_asString L []
  simpa [String.join] using h

theorem charChunks_join : ∀ (n : ℕ) (l : List Char), l.length ≤ n →
    (charChunks l).flatten = l := by
  intro n
  induction n with
  | zero =>
      intro l h
      have hl : l = [] := List.length_eq_zero.mp (Nat.le_zero.mp h)
      subst hl
      rfl
  | succ n ih =>
      intro l h
      rcases l with _ | ⟨c, t⟩
      · rfl
      · set l := c :: t with hl
        have hlen : 1 ≤ l.length := by simp [hl]
        have hdroplen : (l.drop 4800).length = l.length - 4800 := List.length_drop 4800 l
        have hcount :
            (l.length + (max_chunk_size - 1)) / max_chunk_size
              = ((l.drop 4800).length + (max_chunk_size - 1)) / max_chunk_size + 1 := by
          simp only [max_chunk_size, hdroplen]
          omega
        have hrange :
            List.range (((l.drop 4800).length + (max_chunk_size - 1)) / max_chunk_size + 1)
              = 0 :: (List.range (((l.drop 4800).length + (max_chunk_size - 1)) / max_chunk_size)).map Nat.succ :=
          List.range_succ_eq_map _
        have hmap : ∀ i : ℕ,
            (l.drop (Nat.succ i * max_chunk_size)).take max_chunk_size
              = ((l.drop 4800).drop (i * max_chunk_size)).take max_chunk_size := by
          intro i
          rw [List.drop_drop]
          have harith : Nat.succ i * max_chunk_size = i * max_chunk_size + 4800 := by
            simp [max_chunk_size, Nat.succ_mul]
          rw [harith, Nat.add_comm]
        have htail : (charChunks (l.drop 4800)).flatten = l.drop 4800 := by
          apply ih
          rw [hdroplen]
          omega
        unfold charChunks
        rw [hcount, hrange]
        simp only [List.map_cons, List.map_map, List.flatten_cons]
        have hfirst : (l.drop (0 * max_chunk_size)).take max_chunk_size = l.take 4800 := by
          simp [max_chunk_size]
        rw [hfirst]
        have hrest :
            ((List.range (((l.drop 4800).length + (max_chunk_size - 1)) / max_chunk_size)).map
              ((fun i => (l.drop (i * max_chunk_size)).take max_chunk_size) ∘ Nat.succ)).flatten
              = l.drop 4800 := by
          have hcong :
              (List.range (((l.drop 4800).length + (max_chunk_size - 1)) / max_chunk_size)).map
                ((fun i => (l.drop (i * max_chunk_size)).take max_chunk_size) ∘ Nat.succ)
                = (List.range (((l.drop 4800).length + (max_chunk_size - 1)) / max_chunk_size)).map
                  (fun i => ((l.drop 4800).drop (i * max_chunk_size)).take max_chunk_size) := by
            apply List.map_congr_left
            intro i _
            exact hmap i
          rw [hcong]
          exact htail
        rw [hrest]
        exact List.take_append_drop 4800 l

/-- C3: for every input string, chunking with maximum chunk size 4800
yields an ordered sequence of contiguous substrings whose concatenation
equals the input exactly, every chunk has length at most 4800, and the
empty string yields the empty chunk sequence. -/
theorem chunking_lossless (s : String) :
    String.join (pyChunks s) = s ∧
    (pyChunks s).all (fun c => c.length ≤ 4800) = true ∧
    pyChunks "" = [] := by
  refine ⟨?_, ?_, rfl⟩
  · unfold pyChunks
    rw [join_map_asString, charChunks_join s.data.length s.data (le_refl _)]
    cases s
    rfl
  · rw [List.all_eq_true]
    intro c hc
    unfold pyChunks charChunks at hc
    simp only [List.map_map, List.mem_map, List.mem_range, Function.comp] at hc
    obtain ⟨i, _, hi⟩ := hc
    subst hi
    simp only [decide_eq_true_eq]
    have hx : ((s.data.drop (i * max_chunk_size)).take max_chunk_size).asString.length
        = ((s.data.drop (i * max_chunk_size)).take max_chunk_size).length := rfl
    rw [hx, List.length_take]
    simp only [max_chunk_size]
    exact min_le_left _ _

/- Python str.strip() default whitespace characters (ASCII range). -/
def isPySpace (c : Char) : Bool :=
  c = ' ' || c = '\t' || c = '\n' || c = '\r' || c = '\x0b' || c = '\x0c'

/- Truthiness of chunk.strip(): the chunk has some non-whitespace char. -/
def hasNonWhite (s : String) : Bool :=
  s.data.any (fun c => !(isPySpace c))

/- Python substring membership: needle in hay. -/
def isSubstrOf (needle hay : List Char) : Bool :=
  hay.tails.any (fun t => needle.isPrefixOf t)

/- any(keyword in text_lower for keyword in kws). -/
def kwHit (kws : List String) (text_lower : String) : Bool :=
  kws.any (fun k => isSubstrOf k.data text_lower.data)

/- transcription.py lines 128-129. -/
def distress_keywords : List String :=
  ["debt", "payment", "difficult", "problem", "worried",
   "stress", "cannot", "unable", "help", "late", "behind"]

/- transcription.py lines 132-133. -/
def positive_keywords : List String :=
  ["thank", "appreciate", "good", "great", "excellent",
   "happy", "satisfied", "agree", "perfect"]

/- Python str.lower(), character by character over the code points. -/
def pyLower (s : String) : String :=
  (s.data.map Char.toLower).asString

/- transcription.py lines 123-149: _analyze_customer_tone. -/
def analyze_customer_tone (text : String) (sentiment : Sentiment) : String :=
  let text_lower := pyLower text
  if sentiment = .NEGATIVE then
    if kwHit distress_keywords text_lower then
      "Customer showed signs of financial distress and expressed concerns about their financial situation"
    else
      "Customer expressed dissatisfaction during the conversation"
  else if sentiment = .POSITIVE then
    if kwHit positive_keywords text_lower then
      "Customer showed appreciation and maintained a positive attitude throughout the discussion"
    else
      "Customer maintained a constructive and optimistic approach"
  else if sentiment = .MIXED then
    "Customer showed varying emotions, mixing both concerns and positive engagement"
  else
    "Customer maintained a professional and balanced tone throughout the conversation"

/- transcription.py lines 151-160: _analyze_employee_tone. -/
def analyze_employee_tone (sentiment : Sentiment) : String :=
  if sentiment = .POSITIVE then
    "Demonstrated strong customer service with an encouraging and supportive approach"
  else if sentiment = .NEGATIVE then
    "Showed signs of tension in communication style"
  else if sentiment = .MIXED then
    "Displayed varying levels of engagement throughout the conversation"
  else
    "Maintained a professional and consistent tone throughout the call"

/- Histogram over the four labels, insertion order POSITIVE, NEGATIVE,
   NEUTRAL, MIXED; transcription.py lines 80-85 and 105-110. -/
structure SentimentCounts where
  POSITIVE : ℕ
  NEGATIVE : ℕ
  NEUTRAL : ℕ
  MIXED : ℕ
deriving DecidableEq, Repr

def countsGet (c : SentimentCounts) : Sentiment → ℕ
  | .POSITIVE => c.POSITIVE
  | .NEGATIVE => c.NEGATIVE
  | .NEUTRAL => c.NEUTRAL
  | .MIXED => c.MIXED

def mkCounts (l : List Sentiment) : SentimentCounts :=
  ⟨l.count .POSITIVE, l.count .NEGATIVE, l.count .NEUTRAL, l.count .MIXED⟩

def sumCounts (c : SentimentCounts) : ℕ :=
  c.POSITIVE + c.NEGATIVE + c.NEUTRAL + c.MIXED

/- max(sentiment_counts, key=sentiment_counts.get): iterate the keys in
   insertion order keeping the current key unless a strictly larger
   count appears, so the first maximal key wins. -/
def pyMaxSentiment (c : SentimentCounts) : Sentiment :=
  [Sentiment.POSITIVE, .NEGATIVE, .NEUTRAL, .MIXED].foldl
    (fun b x => if countsGet c x > countsGet c b then x else b) .POSITIVE

/- One entry of sentiment_results; transcription.py lines 96-101. -/
structure SpeakerSummary where
  dominant_sentiment : Sentiment
  sentiment_counts : SentimentCounts
  tone_summary : String
  tone_description : String
deriving DecidableEq, Repr

/- Labels collected for one speaker: one classifier call per chunk with
   truthy chunk.strip(); transcription.py lines 69-76. -/
def speakerLabels (classify : String → Sentiment) (utterances : String) : List Sentiment :=
  (pyChunks utterances).filterMap
    (fun chunk => if hasNonWhite chunk then some (classify chunk) else none)

/- Summary built from a nonempty label list; transcription.py lines 79-101. -/
def mkSpeakerSummary (speaker utterances : String) (labels : List Sentiment) : SpeakerSummary :=
  let sentiment_counts := mkCounts labels
  let dominant_sentiment := pyMaxSentiment sentiment_counts
  let tone_description :=
    if speaker = "spk_1" then analyze_customer_tone utterances dominant_sentiment
    else analyze_employee_tone dominant_sentiment
  { dominant_sentiment := dominant_sentiment,
    sentiment_counts := sentiment_counts,
    tone_summary := sentimentStr dominant_sentiment,
    tone_description := tone_description }

def speakerSummary (classify : String → Sentiment) (speaker utterances : String) :
    Option SpeakerSummary :=
  let labels := speakerLabels classify utterances
  if labels.isEmpty then none
  else some (mkSpeakerSummary speaker utterances labels)

/- Python dict assignment d[k] = v on an insertion-ordered dict. -/
def dictInsert {α : Type} (d : List (String × α)) (k : String) (v : α) :
    List (String × α) :=
  if d.any (fun p => p.1 = k) then
    d.map (fun p => if p.1 = k then (k, v) else p)
  else
    d ++ [(k, v)]

structure SentimentResult where
  per_speaker : List (String × SpeakerSummary)
  overall_sentiment : Sentiment
deriving DecidableEq, Repr

/- One iteration of the speaker loop of analyze_sentiment
   (transcription.py lines 61-101): collect the chunk labels into
   all_sentiments and record the summary when any label was produced. -/
def analyzeStep (classify : String → Sentiment)
    (acc : List (String × SpeakerSummary) × List Sentiment) (p : String × String) :
    List (String × SpeakerSummary) × List Sentiment :=
  let labels := speakerLabels classify p.2
  let results :=
    match speakerSummary classify p.1 p.2 with
    | some s => dictInsert acc.1 p.1 s
    | none => acc.1
  (results, acc.2 ++ labels)

/- transcription.py lines 45-118: analyze_sentiment, with the external
   Comprehend classifier as the oracle parameter. -/
def analyze_sentiment (classify : String → Sentiment)
    (speakers_text : List (String × String)) : SentimentResult :=
  let r := speakers_text.foldl (analyzeStep classify) ([], [])
  { per_speaker := r.1,
    overall_sentiment :=
      if r.2.isEmpty then .NEUTRAL else pyMaxSentiment (mkCounts r.2) }

theorem filterMap_guard {α β : Type} (p : α → Bool) (f : α → β) (l : List α) :
    l.filterMap (fun a => if p a then some (f a) else none) = (l.filter p).map f := by
  induction l with
  | nil => rfl
  | cons h t ih =>
      by_cases hp : p h
      · simp [List.filterMap_cons, List.filter_cons, hp, ih]
      · simp [List.filterMap_cons, List.filter_cons, hp, ih]

theorem speakerLabels_eq (classify : String → Sentiment) (u : String) :
    speakerLabels classify u = ((pyChunks u).filter (fun ch => hasNonWhite ch)).map classify :=
  filterMap_guard _ _ _

theorem sumCounts_mkCounts (l : List Sentiment) : sumCounts (mkCounts l) = l.length := by
  induction l with
  | nil => rfl
  | cons h t ih =>
      cases h <;> simp [mkCounts, sumCounts, List.count_cons] at * <;> omega

theorem countsGet_mkCounts (l : List Sentiment) (x : Sentiment) :
    countsGet (mkCounts l) x = l.count x := by
  cases x <;> rfl

theorem pyMax_ge (c : SentimentCounts) (x : Sentiment) :
    countsGet c x ≤ countsGet c (pyMaxSentiment c) := by
  rcases c with ⟨a, b, u, m⟩
  cases x <;>
    (simp only [pyMaxSentiment, countsGet, List.foldl] <;>
     split_ifs <;> simp_all [countsGet] <;> omega)

theorem pyMax_tie (c : SentimentCounts) (x : Sentiment) :
    countsGet c x = countsGet c (pyMaxSentiment c) →
    sentIdx (pyMaxSentiment c) ≤ sentIdx x := by
  rcases c with ⟨a, b, u, m⟩
  cases x <;>
    (simp only [pyMaxSentiment, countsGet, List.foldl] <;>
     split_ifs <;> simp_all [countsGet, sentIdx] <;> omega)

/- String helper facts used throughout (String.append works on the
   underlying character lists). -/
theorem strData_append (a b : String) : (a ++ b).data = a.data ++ b.data := by
  cases a
  cases b
  rfl

theorem strAppend_nil (a : String) : a ++ "" = a := by
  cases a with
  | mk d =>
      show String.mk (d ++ []) = String.mk d
      rw [List.append_nil]

theorem strNil_append (a : String) : "" ++ a = a := by
  cases a with
  | mk d => rfl

theorem strAssoc (a b c : String) : a ++ b ++ c = a ++ (b ++ c) := by
  cases a with
  | mk x =>
    cases b with
    | mk y =>
      cases c with
      | mk z =>
          show String.mk ((x ++ y) ++ z) = String.mk (x ++ (y ++ z))
          rw [List.append_assoc]

theorem str_eq_empty_iff (a : String) : a = "" ↔ a.data = [] := by
  cases a with
  | mk d =>
      constructor
      · intro h
        exact congrArg String.data h
      · intro h
        exact congrArg String.mk h

theorem strAppend_ne_empty_left (a b : String) (h : a ≠ "") : a ++ b ≠ "" := by
  intro hc
  apply h
  rw [str_eq_empty_iff] at hc ⊢
  rw [strData_append] at hc
  exact (List.append_eq_nil.mp hc).1

theorem line_ne_empty (p b : String) : p ++ ": " ++ b ≠ "" := by
  intro hc
  rw [str_eq_empty_iff, strData_append, strData_append] at hc
  rcases List.append_eq_nil.mp hc with ⟨h1, _⟩
  rcases List.append_eq_nil.mp h1 with ⟨_, h2⟩
  simp at h2

theorem sfoldl_append : ∀ (l : List String) (a : String),
    l.foldl (· ++ ·) a = a ++ l.foldl (· ++ ·) "" := by
  intro l
  induction l with
  | nil => intro a; exact (strAppend_nil a).symm
  | cons x t ih =>
      intro a
      simp only [List.foldl_cons]
      rw [ih (a ++ x), ih ("" ++ x), strNil_append, strAssoc]

theorem sjoin_nil : String.join ([] : List String) = "" := rfl

theorem sjoin_cons (x : String) (l : List String) :
    String.join (x :: l) = x ++ String.join l := by
  simp only [String.join, List.foldl_cons]
  rw [sfoldl_append l ("" ++ x), strNil_append]

/- One recognized item of the transcript payload: a pronunciation item
   carries its start time (the dict key used for speaker lookup, kept as
   the raw string), its end time, and its content; a punctuation item
   carries content only.  Models transcript_data results items,
   transcription.py lines 195-219. -/
inductive TransItem where
  | pron (start_time : String) (end_time : ℚ) (content : String)
  | punct (content : String)
deriving DecidableEq, Repr

/- One diarization segment: speaker label plus the start times of the
   items inside it; transcription.py lines 186-189. -/
structure Segment where
  speaker_label : String
  items : List String
deriving DecidableEq, Repr

/- speaker_map construction, later segments overwriting earlier entries
   for a colliding start time; transcription.py lines 186-189. -/
def buildSpeakerMap (segments : List Segment) : List (String × String) :=
  segments.foldl
    (fun m seg => seg.items.foldl (fun m st => dictInsert m st seg.speaker_label) m) []

/- speaker_map.get(start_time). -/
def mapGet (m : List (String × String)) (k : String) : Option String :=
  match m.find? (fun p => p.1 = k) with
  | some p => some p.2
  | none => none

/- Python rendering of the speaker value inside the f-string: None
   prints as the text None. -/
def speakerStrOpt : Option String → String
  | some s => s
  | none => "None"

/- The mutable state of the transcript-building loop,
   transcription.py lines 177-222; speakers_text has exactly the keys
   spk_0 and spk_1, kept as two fields. -/
structure NormState where
  current_speaker : Option String
  current_line : String
  transcript_text : String
  spk0 : String
  spk1 : String
  duration : ℚ
deriving DecidableEq, Repr

def initNormState : NormState :=
  { current_speaker := none, current_line := "", transcript_text := "",
    spk0 := "", spk1 := "", duration := 0 }

/- speakers_text[speaker] += x guarded by the membership test
   speaker in speakers_text; transcription.py lines 209-210 and 218-219. -/
def addSpeakerText (st : NormState) (sp : Option String) (x : String) : NormState :=
  if sp = some "spk_0" then { st with spk0 := st.spk0 ++ x }
  else if sp = some "spk_1" then { st with spk1 := st.spk1 ++ x }
  else st

/- Speaker-change and line-buffer logic for a pronunciation item;
   transcription.py lines 197-206. -/
def lineStep (m : List (String × String)) (st : NormState) (t c : String) : NormState :=
  if mapGet m t ≠ st.current_speaker then
    if st.current_line ≠ "" then
      { st with transcript_text := st.transcript_text ++ st.current_line ++ "\n",
                current_speaker := mapGet m t,
                current_line := speakerStrOpt (mapGet m t) ++ ": " ++ c }
    else
      { st with current_speaker := mapGet m t,
                current_line := speakerStrOpt (mapGet m t) ++ ": " ++ c }
  else
    { st with current_line := st.current_line ++ " " ++ c }

/- duration = max(duration, end_time) via the strict comparison of
   transcription.py lines 213-214. -/
def durStep (st : NormState) (e : ℚ) : NormState :=
  if e > st.duration then { st with duration := e } else st

/- One loop iteration over items; transcription.py lines 195-219. -/
def normStep (m : List (String × String)) (st : NormState) : TransItem → NormState
  | .pron t e c => durStep (addSpeakerText (lineStep m st t c) (mapGet m t) (" " ++ c)) e
  | .punct c => addSpeakerText { st with current_line := st.current_line ++ c } st.current_speaker c

def processItems (m : List (String × String)) (st : NormState)
    (items : List TransItem) : NormState :=
  items.foldl (normStep m) st

/- Final flush of a nonempty line buffer; transcription.py lines 221-222. -/
def normFinish (st : NormState) : NormState :=
  if st.current_line ≠ "" then
    { st with transcript_text := st.transcript_text ++ st.current_line ++ "\n" }
  else st

/- Core of get_transcription_result (transcription.py lines 177-222):
   from the diarization segments and the ordered item stream to the
   final loop state (transcript_text, speakers_text, duration). -/
def get_transcription_result (segments : List Segment) (items : List TransItem) : NormState :=
  normFinish (processItems (buildSpeakerMap segments) initNormState items)

theorem addSpeakerText_cs (st : NormState) (sp : Option String) (x : String) :
    (addSpeakerText st sp x).current_speaker = st.current_speaker := by
  unfold addSpeakerText; split_ifs <;> rfl

theorem addSpeakerText_line (st : NormState) (sp : Option String) (x : String) :
    (addSpeakerText st sp x).current_line = st.current_line := by
  unfold addSpeakerText; split_ifs <;> rfl

theorem addSpeakerText_text (st : NormState) (sp : Option String) (x : String) :
    (addSpeakerText st sp x).transcript_text = st.transcript_text := by
  unfold addSpeakerText; split_ifs <;> rfl

theorem addSpeakerText_dur (st : NormState) (sp : Option String) (x : String) :
    (addSpeakerText st sp x).duration = st.duration := by
  unfold addSpeakerText; split_ifs <;> rfl

theorem addSpeakerText_spk0 (st : NormState) (sp : Option String) (x : String) :
    (addSpeakerText st sp x).spk0
      = if sp = some "spk_0" then st.spk0 ++ x else st.spk0 := by
  unfold addSpeakerText; split_ifs <;> rfl

theorem addSpeakerText_spk1 (st : NormState) (sp : Option String) (x : String) :
    (addSpeakerText st sp x).spk1
      = if sp = some "spk_1" then st.spk1 ++ x else st.spk1 := by
  unfold addSpeakerText
  split_ifs with h1 h2 <;> simp_all

theorem durStep_cs (st : NormState) (e : ℚ) :
    (durStep st e).current_speaker = st.current_speaker := by
  unfold durStep; split_ifs <;> rfl

theorem durStep_line (st : NormState) (e : ℚ) :
    (durStep st e).current_line = st.current_line := by
  unfold durStep; split_ifs <;> rfl

theorem durStep_text (st : NormState) (e : ℚ) :
    (durStep st e).transcript_text = st.transcript_text := by
  unfold durStep; split_ifs <;> rfl

theorem durStep_spk0 (st : NormState) (e : ℚ) : (durStep st e).spk0 = st.spk0 := by
  unfold durStep; split_ifs <;> rfl

theorem durStep_spk1 (st : NormState) (e : ℚ) : (durStep st e).spk1 = st.spk1 := by
  unfold durStep; split_ifs <;> rfl

theorem durStep_dur (st : NormState) (e : ℚ) :
    (durStep st e).duration = max st.duration e := by
  unfold durStep
  split_ifs with h
  · exact (max_eq_right (le_of_lt h)).symm
  · exact (max_eq_left (not_lt.mp h)).symm

theorem lineStep_spk0 (m : List (String × String)) (st : NormState) (t c : String) :
    (lineStep m st t c).spk0 = st.spk0 := by
  unfold lineStep; split_ifs <;> rfl

theorem lineStep_spk1 (m : List (String × String)) (st : NormState) (t c : String) :
    (lineStep m st t c).spk1 = st.spk1 := by
  unfold lineStep; split_ifs <;> rfl

theorem lineStep_dur (m : List (String × String)) (st : NormState) (t c : String) :
    (lineStep m st t c).duration = st.duration := by
  unfold lineStep; split_ifs <;> rfl

theorem lineStep_cs (m : List (String × String)) (st : NormState) (t c : String) :
    (lineStep m st t c).current_speaker = mapGet m t := by
  unfold lineStep
  split_ifs with h h2
  · rfl
  · rfl
  · exact (not_ne_iff.mp h).symm

theorem normStep_cs_pron (m : List (String × String)) (st : NormState) (t : String)
    (e : ℚ) (c : String) :
    (normStep m st (.pron t e c)).current_speaker = mapGet m t := by
  simp only [normStep]
  rw [durStep_cs, addSpeakerText_cs, lineStep_cs]

theorem normStep_cs_punct (m : List (String × String)) (st : NormState) (c : String) :
    (normStep m st (.punct c)).current_speaker = st.current_speaker := by
  simp only [normStep]
  rw [addSpeakerText_cs]

theorem normStep_spk0_pron (m : List (String × String)) (st : NormState) (t : String)
    (e : ℚ) (c : String) :
    (normStep m st (.pron t e c)).spk0
      = if mapGet m t = some "spk_0" then st.spk0 ++ (" " ++ c) else st.spk0 := by
  simp only [normStep]
  rw [durStep_spk0, addSpeakerText_spk0, lineStep_spk0]

theorem normStep_spk1_pron (m : List (String × String)) (st : NormState) (t : String)
    (e : ℚ) (c : String) :
    (normStep m st (.pron t e c)).spk1
      = if mapGet m t = some "spk_1" then st.spk1 ++ (" " ++ c) else st.spk1 := by
  simp only [normStep]
  rw [durStep_spk1, addSpeakerText_spk1, lineStep_spk1]

theorem normStep_spk0_punct (m : List (String × String)) (st : NormState) (c : String) :
    (normStep m st (.punct c)).spk0
      = if st.current_speaker = some "spk_0" then st.spk0 ++ c else st.spk0 := by
  simp only [normStep]
  rw [addSpeakerText_spk0]

theorem normStep_spk1_punct (m : List (String × String)) (st : NormState) (c : String) :
    (normStep m st (.punct c)).spk1
      = if st.current_speaker = some "spk_1" then st.spk1 ++ c else st.spk1 := by
  simp only [normStep]
  rw [addSpeakerText_spk1]

theorem normStep_dur_pron (m : List (String × String)) (st : NormState) (t : String)
    (e : ℚ) (c : String) :
    (normStep m st (.pron t e c)).duration = max st.duration e := by
  simp only [normStep]
  rw [durStep_dur, addSpeakerText_dur, lineStep_dur]

theorem normStep_dur_punct (m : List (String × String)) (st : NormState) (c : String) :
    (normStep m st (.punct c)).duration = st.duration := by
  simp only [normStep]
  rw [addSpeakerText_dur]

theorem normFinish_cs (st : NormState) :
    (normFinish st).current_speaker = st.current_speaker := by
  unfold normFinish; split_ifs <;> rfl

theorem normFinish_spk0 (st : NormState) : (normFinish st).spk0 = st.spk0 := by
  unfold normFinish; split_ifs <;> rfl

theorem normFinish_spk1 (st : NormState) : (normFinish st).spk1 = st.spk1 := by
  unfold normFinish; split_ifs <;> rfl

theorem normFinish_dur (st : NormState) : (normFinish st).duration = st.duration := by
  unfold normFinish; split_ifs <;> rfl

/- Specification-side rendering of one item inside a speaker stream or a
   line body: each word arrives space-prefixed, punctuation attaches
   directly. -/
def itemRender : TransItem → String
  | .pron _ _ c => " " ++ c
  | .punct c => c

/- Each item paired with the speaker the loop attributes it to: a word
   gets its speaker-map entry, punctuation the speaker of the most
   recent preceding word (none before the first word). -/
def annotate (m : List (String × String)) :
    Option String → List TransItem → List (Option String × TransItem)
  | _, [] => []
  | _, .pron t e c :: rest => (mapGet m t, .pron t e c) :: annotate m (mapGet m t) rest
  | cs, .punct c :: rest => (cs, .punct c) :: annotate m cs rest

/- The text of exactly the items attributed to one target speaker, in
   input order, rendered with itemRender. -/
def attributedText (m : List (String × String)) (target : String)
    (cs : Option String) (items : List TransItem) : String :=
  String.join
    (((annotate m cs items).filter (fun p => p.1 = some target)).map
      (fun p => itemRender p.2))

theorem attributedText_nil (m : List (String × String)) (target : String)
    (cs : Option String) : attributedText m target cs [] = "" := rfl

theorem attributedText_pron (m : List (String × String)) (target : String)
    (cs : Option String) (t : String) (e : ℚ) (c : String) (rest : List TransItem) :
    attributedText m target cs (.pron t e c :: rest)
      = (if mapGet m t = some target then " " ++ c else "")
        ++ attributedText m target (mapGet m t) rest := by
  unfold attributedText
  simp only [annotate]
  by_cases h : mapGet m t = some target
  · simp [List.filter_cons, h, sjoin_cons, itemRender]
  · simp [List.filter_cons, h, strNil_append]

theorem attributedText_punct (m : List (String × String)) (target : String)
    (cs : Option String) (c : String) (rest : List TransItem) :
    attributedText m target cs (.punct c :: rest)
      = (if cs = some target then c else "") ++ attributedText m target cs rest := by
  unfold attributedText
  simp only [annotate]
  by_cases h : cs = some target
  · simp [List.filter_cons, h, sjoin_cons, itemRender]
  · simp [List.filter_cons, h, strNil_append]

theorem stream_spk0 (m : List (String × String)) :
    ∀ (items : List TransItem) (st : NormState),
      (processItems m st items).spk0
        = st.spk0 ++ attributedText m "spk_0" st.current_speaker items := by
  intro items
  induction items with
  | nil =>
      intro st
      rw [attributedText_nil]
      exact (strAppend_nil _).symm
  | cons i rest ih =>
      intro st
      cases i with
      | pron t e c =>
          have hstep : processItems m st (.pron t e c :: rest)
              = processItems m (normStep m st (.pron t e c)) rest := rfl
          rw [hstep, ih, normStep_spk0_pron, normStep_cs_pron, attributedText_pron]
          by_cases h : mapGet m t = some "spk_0"
          · simp [h, strAssoc]
          · simp [h, strNil_append]
      | punct c =>
          have hstep : processItems m st (.punct c :: rest)
              = processItems m (normStep m st (.punct c)) rest := rfl
          rw [hstep, ih, normStep_spk0_punct, normStep_cs_punct, attributedText_punct]
          by_cases h : st.current_speaker = some "spk_0"
          · simp [h, strAssoc]
          · simp [h, strNil_append]

theorem stream_spk1 (m : List (String × String)) :
    ∀ (items : List TransItem) (st : NormState),
      (processItems m st items).spk1
        = st.spk1 ++ attributedText m "spk_1" st.current_speaker items := by
  intro items
  induction items with
  | nil =>
      intro st
      rw [attributedText_nil]
      exact (strAppend_nil _).symm
  | cons i rest ih =>
      intro st
      cases i with
      | pron t e c =>
          have hstep : processItems m st (.pron t e c :: rest)
              = processItems m (normStep m st (.pron t e c)) rest := rfl
          rw [hstep, ih, normStep_spk1_pron, normStep_cs_pron, attributedText_pron]
          by_cases h : mapGet m t = some "spk_1"
          · simp [h, strAssoc]
          · simp [h, strNil_append]
      | punct c =>
          have hstep : processItems m st (.punct c :: rest)
              = processItems m (normStep m st (.punct c)) rest := rfl
          rw [hstep, ih, normStep_spk1_punct, normStep_cs_punct, attributedText_punct]
          by_cases h : st.current_speaker = some "spk_1"
          · simp [h, strAssoc]
          · simp [h, strNil_append]

/-- C5: for each of the two speakers kept in speakers_text, the entry
produced by get_transcription_result is exactly the rendered text of the
input items attributed to that speaker, in input (time) order, with no
other speaker text interleaved. -/
theorem speaker_text_stream_exact (segments : List Segment) (items : List TransItem) :
    (get_transcription_result segments items).spk0
      = attributedText (buildSpeakerMap segments) "spk_0" none items ∧
    (get_transcription_result segments items).spk1
      = attributedText (buildSpeakerMap segments) "spk_1" none items := by
  unfold get_transcription_result
  rw [normFinish_spk0, normFinish_spk1, stream_spk0, stream_spk1]
  exact ⟨strNil_append _, strNil_append _⟩

/- Running maximum of word end times, zero initially; the duration
   tracked by the loop. -/
def durOf (items : List TransItem) : ℚ :=
  items.foldl
    (fun d i => match i with | .pron _ e _ => max d e | .punct _ => d) 0

theorem duration_fold (m : List (String × String)) :
    ∀ (items : List TransItem) (st : NormState),
      (processItems m st items).duration
        = items.foldl
            (fun d i => match i with | .pron _ e _ => max d e | .punct _ => d)
            st.duration := by
  intro items
  induction items with
  | nil => intro st; rfl
  | cons i rest ih =>
      intro st
      cases i with
      | pron t e c =>
          have hstep : processItems m st (.pron t e c :: rest)
              = processItems m (normStep m st (.pron t e c)) rest := rfl
          rw [hstep, ih, List.foldl_cons, normStep_dur_pron]
      | punct c =>
          have hstep : processItems m st (.punct c :: rest)
              = processItems m (normStep m st (.punct c)) rest := rfl
          rw [hstep, ih, List.foldl_cons, normStep_dur_punct]

theorem get_result_duration (segments : List Segment) (items : List TransItem) :
    (get_transcription_result segments items).duration = durOf items := by
  unfold get_transcription_result durOf
  rw [normFinish_dur, duration_fold]
  rfl

/- The two-word scenario of the specification: Hello from spk_0 over
   time 0 to 0.5 and Hi from spk_1 over 0.5 to 1. -/
def scenarioSegments : List Segment :=
  [{ speaker_label := "spk_0", items := ["0.0"] },
   { speaker_label := "spk_1", items := ["0.5"] }]

def scenarioItems : List TransItem :=
  [.pron "0.0" (1/2) "Hello", .pron "0.5" 1 "Hi"]

/-- C9: on the two-item word stream Hello (0.0 to 0.5, spk_0) then Hi
(0.5 to 1.0, spk_1) the normalizer produces exactly the transcript text
spk_0: Hello newline spk_1: Hi newline (every line newline-terminated)
and duration 1; in general the duration is the running maximum of the
word end times, zero for an empty item sequence. -/
theorem two_word_scenario :
    (get_transcription_result scenarioSegments scenarioItems).transcript_text
      = "spk_0: Hello\nspk_1: Hi\n"
    ∧ (get_transcription_result scenarioSegments scenarioItems).duration = 1
    ∧ (∀ (segments : List Segment) (items : List TransItem),
        (get_transcription_result segments items).duration = durOf items)
    ∧ durOf [] = 0 := by
  have h1 : ((1:ℚ)/2) > 0 := by norm_num
  have h2 : (1:ℚ) > 1/2 := by norm_num
  have h3 : (2⁻¹ : ℚ) < 1 := by norm_num
  have h4 : (0:ℚ) < 2⁻¹ := by norm_num
  refine ⟨?_, ?_, get_result_duration, rfl⟩
  · simp [get_transcription_result, scenarioSegments, scenarioItems, processItems,
          normStep, lineStep, durStep, addSpeakerText, normFinish, buildSpeakerMap,
          dictInsert, mapGet, initNormState, speakerStrOpt, h1, h2, h3, h4]
  · simp [get_transcription_result, scenarioSegments, scenarioItems, processItems,
          normStep, lineStep, durStep, addSpeakerText, normFinish, buildSpeakerMap,
          dictInsert, mapGet, initNormState, speakerStrOpt, h1, h2, h3, h4]

theorem normStep_withPre (m : List (String × String)) (st : NormState) (P : String)
    (i : TransItem) :
    normStep m { st with transcript_text := P ++ st.transcript_text } i
      = { normStep m st i with
          transcript_text := P ++ (normStep m st i).transcript_text } := by
  rcases st with ⟨cs, line, T, s0, s1, d⟩
  cases i with
  | pron t e c =>
      simp only [normStep, lineStep, durStep, addSpeakerText]
      split_ifs <;> simp_all [strAssoc]
  | punct c =>
      simp only [normStep, addSpeakerText]
      split_ifs <;> simp_all [strAssoc]

theorem normFinish_withPre (st : NormState) (P : String) :
    normFinish { st with transcript_text := P ++ st.transcript_text }
      = { normFinish st with
          transcript_text := P ++ (normFinish st).transcript_text } := by
  rcases st with ⟨cs, line, T, s0, s1, d⟩
  simp only [normFinish]
  split_ifs <;> simp_all [strAssoc]

theorem run_withPre (m : List (String × String)) :
    ∀ (items : List TransItem) (st : NormState) (P : String),
      normFinish (processItems m { st with transcript_text := P ++ st.transcript_text } items)
        = { normFinish (processItems m st items) with
            transcript_text := P ++ (normFinish (processItems m st items)).transcript_text } := by
  intro items
  induction items with
  | nil => intro st P; exact normFinish_withPre st P
  | cons i rest ih =>
      intro st P
      show normFinish (processItems m (normStep m { st with transcript_text := P ++ st.transcript_text } i) rest) = _
      rw [normStep_withPre]
      exact ih (normStep m st i) P

theorem punct_run (m : List (String × String)) :
    ∀ (ps : List String) (st : NormState), st.current_speaker = none →
      processItems m st (ps.map TransItem.punct)
        = { st with current_line := st.current_line ++ String.join ps } := by
  intro ps
  induction ps with
  | nil =>
      intro st _
      show st = { st with current_line := st.current_line ++ String.join [] }
      rw [sjoin_nil, strAppend_nil]
  | cons p pr ih =>
      intro st hcs
      have hstep : normStep m st (.punct p) = { st with current_line := st.current_line ++ p } := by
        simp [normStep, addSpeakerText, hcs]
      show processItems m (normStep m st (.punct p)) (pr.map TransItem.punct) = _
      rw [hstep, ih { st with current_line := st.current_line ++ p } hcs]
      rw [sjoin_cons, strAssoc]

theorem addSpeakerText_setT (st : NormState) (sp : Option String) (x v : String) :
    addSpeakerText { st with transcript_text := v } sp x
      = { addSpeakerText st sp x with transcript_text := v } := by
  unfold addSpeakerText
  split_ifs <;> rfl

theorem durStep_setT (st : NormState) (e : ℚ) (v : String) :
    durStep { st with transcript_text := v } e
      = { durStep st e with transcript_text := v } := by
  rcases st with ⟨cs, line, T, s0, s1, d⟩
  unfold durStep
  dsimp only
  split_ifs <;> rfl

theorem attributed_skip_puncts (m : List (String × String)) (target : String) :
    ∀ (ps : List String) (items : List TransItem),
      attributedText m target none (ps.map TransItem.punct ++ items)
        = attributedText m target none items := by
  intro ps
  induction ps with
  | nil => intro items; rfl
  | cons p pr ih =>
      intro items
      show attributedText m target none (.punct p :: (pr.map TransItem.punct ++ items)) = _
      rw [attributedText_punct]
      have : (none : Option String) = some target ↔ False := by simp
      simp only [this, if_false]
      rw [strNil_append, ih]

/-- C10: punctuation items arriving before the first word raise no error
and are handled as follows: they accumulate in the still-unlabelled line
buffer while current_speaker is none, are excluded from both
speakers_text entries, and are flushed as their own transcript line with
no speaker-label prefix when the first word (whose start time resolves
to a speaker) triggers a speaker change. -/
theorem leading_punctuation_behavior (segments : List Segment) (ps : List String)
    (t : String) (e : ℚ) (c : String) (rest : List TransItem) (s : String)
    (hs : mapGet (buildSpeakerMap segments) t = some s)
    (hp : String.join ps ≠ "") :
    (get_transcription_result segments (ps.map TransItem.punct ++ TransItem.pron t e c :: rest)).spk0
      = (get_transcription_result segments (TransItem.pron t e c :: rest)).spk0
    ∧ (get_transcription_result segments (ps.map TransItem.punct ++ TransItem.pron t e c :: rest)).spk1
      = (get_transcription_result segments (TransItem.pron t e c :: rest)).spk1
    ∧ (get_transcription_result segments (ps.map TransItem.punct ++ TransItem.pron t e c :: rest)).transcript_text
      = String.join ps ++ "\n"
        ++ (get_transcription_result segments (TransItem.pron t e c :: rest)).transcript_text := by
  refine ⟨?_, ?_, ?_⟩
  · unfold get_transcription_result
    rw [normFinish_spk0, normFinish_spk0, stream_spk0, stream_spk0,
        show initNormState.current_speaker = (none : Option String) from rfl,
        attributed_skip_puncts]
  · unfold get_transcription_result
    rw [normFinish_spk1, normFinish_spk1, stream_spk1, stream_spk1,
        show initNormState.current_speaker = (none : Option String) from rfl,
        attributed_skip_puncts]
  · unfold get_transcription_result
    have hsplit :
        processItems (buildSpeakerMap segments) initNormState
            (ps.map TransItem.punct ++ TransItem.pron t e c :: rest)
          = processItems (buildSpeakerMap segments)
              (processItems (buildSpeakerMap segments) initNormState (ps.map TransItem.punct))
              (TransItem.pron t e c :: rest) :=
      List.foldl_append _ _ _ _
    rw [hsplit, punct_run _ _ _ rfl]
    have hline : ({ initNormState with
          current_line := initNormState.current_line ++ String.join ps } : NormState)
        = { initNormState with current_line := String.join ps } := by
      rw [show initNormState.current_line = "" from rfl, strNil_append]
    rw [hline]
    have h0 : lineStep (buildSpeakerMap segments)
          { initNormState with current_line := String.join ps } t c
        = { lineStep (buildSpeakerMap segments) initNormState t c with
            transcript_text := String.join ps ++ "\n" } := by
      simp [lineStep, hs, hp, initNormState, strNil_append, speakerStrOpt]
    have h1 : normStep (buildSpeakerMap segments)
          { initNormState with current_line := String.join ps } (.pron t e c)
        = { normStep (buildSpeakerMap segments) initNormState (.pron t e c) with
            transcript_text := String.join ps ++ "\n" } := by
      simp only [normStep]
      rw [h0, addSpeakerText_setT, durStep_setT]
    have hXT : (normStep (buildSpeakerMap segments) initNormState (.pron t e c)).transcript_text
        = "" := by
      simp only [normStep]
      rw [durStep_text, addSpeakerText_text]
      simp [lineStep, hs, initNormState]
    have h2 : normStep (buildSpeakerMap segments)
          { initNormState with current_line := String.join ps } (.pron t e c)
        = { normStep (buildSpeakerMap segments) initNormState (.pron t e c) with
            transcript_text :=
              (String.join ps ++ "\n")
                ++ (normStep (buildSpeakerMap segments) initNormState (.pron t e c)).transcript_text } := by
      rw [h1, hXT, strAppend_nil]
    show (normFinish (processItems (buildSpeakerMap segments)
        (normStep (buildSpeakerMap segments)
          { initNormState with current_line := String.join ps } (.pron t e c)) rest)).transcript_text = _
    rw [h2, run_withPre]
    rfl

theorem leading_punctuation_behavior_witness :
    (get_transcription_result scenarioSegments
        (List.map TransItem.punct ["."] ++ TransItem.pron "0.0" 0 "Hello" :: [])).spk0
      = (get_transcription_result scenarioSegments (TransItem.pron "0.0" 0 "Hello" :: [])).spk0
    ∧ (get_transcription_result scenarioSegments
        (List.map TransItem.punct ["."] ++ TransItem.pron "0.0" 0 "Hello" :: [])).spk1
      = (get_transcription_result scenarioSegments (TransItem.pron "0.0" 0 "Hello" :: [])).spk1
    ∧ (get_transcription_result scenarioSegments
        (List.map TransItem.punct ["."] ++ TransItem.pron "0.0" 0 "Hello" :: [])).transcript_text
      = String.join ["."] ++ "\n"
        ++ (get_transcription_result scenarioSegments
              (TransItem.pron "0.0" 0 "Hello" :: [])).transcript_text :=
  leading_punctuation_behavior scenarioSegments ["."] "0.0" 0 "Hello" [] "spk_0"
    (by rfl) (by decide)

/- Lines separated by a single separator, the specification reading of
   concatenating transcript lines. -/
def joinSep (sep : String) : List String → String
  | [] => ""
  | [x] => x
  | x :: y :: rest => x ++ sep ++ joinSep sep (y :: rest)

/- Specification-side rendering of the raw word/punctuation sequence:
   words space-joined, punctuation attached with no leading space. -/
def renderStep (acc : String) : TransItem → String
  | .pron _ _ c => if acc = "" then c else acc ++ " " ++ c
  | .punct c => acc ++ c

def renderItems (items : List TransItem) : String :=
  items.foldl renderStep ""

/- The (speaker label, line body) pairs the loop will emit when started
   with current speaker cs and current body, mirroring the
   flush-on-speaker-change discipline. -/
def linesFrom (m : List (String × String)) :
    Option String → String → List TransItem → List (String × String)
  | cs, body, [] => [(speakerStrOpt cs, body)]
  | cs, body, .pron t _ c :: rest =>
      if mapGet m t = cs then linesFrom m cs (body ++ " " ++ c) rest
      else (speakerStrOpt cs, body) :: linesFrom m (mapGet m t) c rest
  | cs, body, .punct c :: rest => linesFrom m cs (body ++ c) rest

/- Well-formed input for transcript reconstruction: the stream is empty
   or opens with a word whose content is nonempty and whose start time
   resolves through the speaker map. -/
def wfItems (m : List (String × String)) : List TransItem → Bool
  | [] => true
  | .pron t _ c :: _ => decide (c ≠ "") && (mapGet m t).isSome
  | .punct _ :: _ => false

theorem normStep_line_punct (m : List (String × String)) (st : NormState) (c : String) :
    (normStep m st (.punct c)).current_line = st.current_line ++ c := by
  simp only [normStep]
  rw [addSpeakerText_line]

theorem normStep_text_punct (m : List (String × String)) (st : NormState) (c : String) :
    (normStep m st (.punct c)).transcript_text = st.transcript_text := by
  simp only [normStep]
  rw [addSpeakerText_text]

theorem lineStep_same (m : List (String × String)) (st : NormState) (t c : String)
    (hsp : mapGet m t = st.current_speaker) :
    lineStep m st t c = { st with current_line := st.current_line ++ " " ++ c } := by
  unfold lineStep
  rw [if_neg (not_ne_iff.mpr hsp)]

theorem lineStep_change (m : List (String × String)) (st : NormState) (t c : String)
    (hsp : mapGet m t ≠ st.current_speaker) (hline : st.current_line ≠ "") :
    lineStep m st t c
      = { st with transcript_text := st.transcript_text ++ st.current_line ++ "\n",
                  current_speaker := mapGet m t,
                  current_line := speakerStrOpt (mapGet m t) ++ ": " ++ c } := by
  unfold lineStep
  rw [if_pos hsp, if_pos hline]

theorem lineStep_change_fresh (m : List (String × String)) (st : NormState) (t c : String)
    (hsp : mapGet m t ≠ st.current_speaker) (hline : st.current_line = "") :
    lineStep m st t c
      = { st with current_speaker := mapGet m t,
                  current_line := speakerStrOpt (mapGet m t) ++ ": " ++ c } := by
  unfold lineStep
  rw [if_pos hsp, if_neg (not_not_intro hline)]

theorem transcript_lines (m : List (String × String)) :
    ∀ (items : List TransItem) (st : NormState) (body : String),
      st.current_line = speakerStrOpt st.current_speaker ++ ": " ++ body →
      (normFinish (processItems m st items)).transcript_text
        = st.transcript_text
          ++ String.join ((linesFrom m st.current_speaker body items).map
              (fun p => p.1 ++ ": " ++ p.2 ++ "\n")) := by
  intro items
  induction items with
  | nil =>
      intro st body hline
      have hne : st.current_line ≠ "" := by
        rw [hline]; exact line_ne_empty _ _
      show (normFinish st).transcript_text = _
      unfold normFinish
      rw [if_pos hne]
      simp only [linesFrom, List.map_cons, List.map_nil]
      rw [sjoin_cons, sjoin_nil, strAppend_nil, hline]
      show st.transcript_text ++ (speakerStrOpt st.current_speaker ++ ": " ++ body) ++ "\n" = _
      rw [strAssoc]
  | cons i rest ih =>
      intro st body hline
      cases i with
      | punct c =>
          have hstep : processItems m st (.punct c :: rest)
              = processItems m (normStep m st (.punct c)) rest := rfl
          have hln : (normStep m st (.punct c)).current_line
              = speakerStrOpt (normStep m st (.punct c)).current_speaker ++ ": " ++ (body ++ c) := by
            rw [normStep_line_punct, normStep_cs_punct, hline, strAssoc]
          rw [hstep, ih _ (body ++ c) hln, normStep_text_punct, normStep_cs_punct]
          rfl
      | pron t e c =>
          by_cases hsp : mapGet m t = st.current_speaker
          · have hls : lineStep m st t c = { st with current_line := st.current_line ++ " " ++ c } :=
              lineStep_same m st t c hsp
            have hcs : (normStep m st (.pron t e c)).current_speaker = st.current_speaker := by
              rw [normStep_cs_pron, hsp]
            have hln : (normStep m st (.pron t e c)).current_line
                = speakerStrOpt (normStep m st (.pron t e c)).current_speaker
                  ++ ": " ++ (body ++ " " ++ c) := by
              simp only [normStep]
              rw [durStep_line, addSpeakerText_line, durStep_cs, addSpeakerText_cs, hls]
              dsimp only
              rw [hline]
              simp only [strAssoc]
            have hT : (normStep m st (.pron t e c)).transcript_text = st.transcript_text := by
              simp only [normStep]
              rw [durStep_text, addSpeakerText_text, hls]
            have hstep : processItems m st (.pron t e c :: rest)
                = processItems m (normStep m st (.pron t e c)) rest := rfl
            rw [hstep, ih _ (body ++ " " ++ c) hln, hT, hcs]
            show _ = st.transcript_text
              ++ String.join ((linesFrom m st.current_speaker body (.pron t e c :: rest)).map
                  (fun p => p.1 ++ ": " ++ p.2 ++ "\n"))
            simp only [linesFrom, if_pos hsp]
          · have hne : st.current_line ≠ "" := by
              rw [hline]; exact line_ne_empty _ _
            have hls := lineStep_change m st t c hsp hne
            have hcs : (normStep m st (.pron t e c)).current_speaker = mapGet m t :=
              normStep_cs_pron m st t e c
            have hln : (normStep m st (.pron t e c)).current_line
                = speakerStrOpt (normStep m st (.pron t e c)).current_speaker ++ ": " ++ c := by
              simp only [normStep]
              rw [durStep_line, addSpeakerText_line, durStep_cs, addSpeakerText_cs, hls]
            have hT : (normStep m st (.pron t e c)).transcript_text
                = st.transcript_text ++ st.current_line ++ "\n" := by
              simp only [normStep]
              rw [durStep_text, addSpeakerText_text, hls]
            have hstep : processItems m st (.pron t e c :: rest)
                = processItems m (normStep m st (.pron t e c)) rest := rfl
            rw [hstep, ih _ c hln, hT, hcs]
            show _ = st.transcript_text
              ++ String.join ((linesFrom m st.current_speaker body (.pron t e c :: rest)).map
                  (fun p => p.1 ++ ": " ++ p.2 ++ "\n"))
            simp only [linesFrom, if_neg hsp, List.map_cons]
            rw [sjoin_cons, hline]
            simp only [strAssoc]

theorem linesFrom_ne_nil (m : List (String × String)) :
    ∀ (items : List TransItem) (cs : Option String) (body : String),
      linesFrom m cs body items ≠ [] := by
  intro items
  induction items with
  | nil => intro cs body; simp [linesFrom]
  | cons i rest ih =>
      intro cs body
      cases i with
      | pron t e c =>
          simp only [linesFrom]
          by_cases hsp : mapGet m t = cs
          · rw [if_pos hsp]; exact ih cs (body ++ " " ++ c)
          · rw [if_neg hsp]; simp
      | punct c =>
          simp only [linesFrom]
          exact ih cs (body ++ c)

theorem linesFrom_bodies (m : List (String × String)) :
    ∀ (items : List TransItem) (cs : Option String) (body : String),
      joinSep " " ((linesFrom m cs body items).map Prod.snd)
        = body ++ String.join (items.map itemRender) := by
  intro items
  induction items with
  | nil =>
      intro cs body
      show body = body ++ String.join []
      rw [sjoin_nil, strAppend_nil]
  | cons i rest ih =>
      intro cs body
      cases i with
      | pron t e c =>
          by_cases hsp : mapGet m t = cs
          · simp only [linesFrom, if_pos hsp]
            rw [ih cs (body ++ " " ++ c)]
            simp only [List.map_cons, sjoin_cons, itemRender, strAssoc]
          · simp only [linesFrom, if_neg hsp, List.map_cons]
            rcases hcase : (linesFrom m (mapGet m t) c rest).map Prod.snd with _ | ⟨l0, ls⟩
            · exfalso
              exact linesFrom_ne_nil m rest (mapGet m t) c (List.map_eq_nil.mp hcase)
            · show body ++ " " ++ joinSep " " (l0 :: ls) = _
              rw [← hcase, ih (mapGet m t) c]
              simp only [List.map_cons, sjoin_cons, itemRender, strAssoc]
      | punct c =>
          simp only [linesFrom]
          rw [ih cs (body ++ c)]
          simp only [List.map_cons, sjoin_cons, itemRender, strAssoc]

theorem renderItems_suffix :
    ∀ (l : List TransItem) (a : String), a ≠ "" →
      l.foldl renderStep a = a ++ String.join (l.map itemRender) := by
  intro l
  induction l with
  | nil =>
      intro a _
      show a = a ++ String.join []
      rw [sjoin_nil, strAppend_nil]
  | cons i rest ih =>
      intro a ha
      cases i with
      | pron t e c =>
          show List.foldl renderStep (renderStep a (.pron t e c)) rest = _
          have hstep : renderStep a (.pron t e c) = a ++ " " ++ c := by
            simp [renderStep, ha]
          rw [hstep, ih _ (strAppend_ne_empty_left _ _ (strAppend_ne_empty_left _ _ ha))]
          simp only [List.map_cons, sjoin_cons, itemRender, strAssoc]
      | punct c =>
          show List.foldl renderStep (renderStep a (.punct c)) rest = _
          have hstep : renderStep a (.punct c) = a ++ c := rfl
          rw [hstep, ih _ (strAppend_ne_empty_left _ _ ha)]
          simp only [List.map_cons, sjoin_cons, itemRender, strAssoc]

/-- C1: for every well-formed input (the item stream is empty or opens
with a word of nonempty content whose start time resolves through the
diarization map), the transcript text is exactly a sequence of
newline-terminated lines, each a speaker label prefix plus a body, and
the bodies joined by single spaces reproduce the original
word/punctuation sequence verbatim (words space-joined, punctuation
attached with no leading space). -/
theorem transcript_reconstruction (segments : List Segment) (items : List TransItem)
    (hwf : wfItems (buildSpeakerMap segments) items = true) :
    ∃ lines : List (String × String),
      (get_transcription_result segments items).transcript_text
        = String.join (lines.map (fun p => p.1 ++ ": " ++ p.2 ++ "\n"))
      ∧ joinSep " " (lines.map Prod.snd) = renderItems items := by
  cases items with
  | nil => exact ⟨[], rfl, rfl⟩
  | cons i rest =>
      cases i with
      | punct c => simp [wfItems] at hwf
      | pron t e c =>
          simp only [wfItems, Bool.and_eq_true, decide_eq_true_eq,
            Option.isSome_iff_exists] at hwf
          obtain ⟨hc, s, hs⟩ := hwf
          have hcs0 : mapGet (buildSpeakerMap segments) t
              ≠ initNormState.current_speaker := by
            rw [hs]
            simp [initNormState]
          have hls := lineStep_change_fresh (buildSpeakerMap segments) initNormState t c
            hcs0 rfl
          have hcs1 : (normStep (buildSpeakerMap segments) initNormState
              (.pron t e c)).current_speaker = mapGet (buildSpeakerMap segments) t :=
            normStep_cs_pron _ _ _ _ _
          have hln1 : (normStep (buildSpeakerMap segments) initNormState
                (.pron t e c)).current_line
              = speakerStrOpt (normStep (buildSpeakerMap segments) initNormState
                  (.pron t e c)).current_speaker ++ ": " ++ c := by
            simp only [normStep]
            rw [durStep_line, addSpeakerText_line, durStep_cs, addSpeakerText_cs, hls]
          have hT1 : (normStep (buildSpeakerMap segments) initNormState
              (.pron t e c)).transcript_text = "" := by
            simp only [normStep]
            rw [durStep_text, addSpeakerText_text, hls]
            rfl
          refine ⟨linesFrom (buildSpeakerMap segments)
            (mapGet (buildSpeakerMap segments) t) c rest, ?_, ?_⟩
          · show (normFinish (processItems (buildSpeakerMap segments)
                (normStep (buildSpeakerMap segments) initNormState (.pron t e c))
                rest)).transcript_text = _
            rw [transcript_lines (buildSpeakerMap segments) rest _ c hln1,
                hT1, hcs1, strNil_append]
          · rw [linesFrom_bodies]
            show _ = List.foldl renderStep (renderStep "" (.pron t e c)) rest
            have h0 : renderStep "" (.pron t e c) = c := by simp [renderStep]
            rw [h0, renderItems_suffix rest c hc]

theorem transcript_reconstruction_witness :
    wfItems (buildSpeakerMap scenarioSegments) scenarioItems = true
    ∧ ∃ lines : List (String × String),
        (get_transcription_result scenarioSegments scenarioItems).transcript_text
          = String.join (lines.map (fun p => p.1 ++ ": " ++ p.2 ++ "\n"))
        ∧ joinSep " " (lines.map Prod.snd) = renderItems scenarioItems :=
  ⟨rfl, transcript_reconstruction scenarioSegments scenarioItems rfl⟩

theorem dictInsert_mem {α : Type} (d : List (String × α)) (k : String) (v : α)
    (p : String × α) (hp : p ∈ dictInsert d k v) : p ∈ d ∨ p = (k, v) := by
  unfold dictInsert at hp
  split_ifs at hp with h
  · rcases List.mem_map.mp hp with ⟨q, hq, hqe⟩
    by_cases hk : q.1 = k
    · right
      rw [if_pos hk] at hqe
      exact hqe.symm
    · left
      rw [if_neg hk] at hqe
      rw [← hqe]
      exact hq
  · rcases List.mem_append.mp hp with h1 | h1
    · left; exact h1
    · right; simpa using h1

theorem speakerSummary_some (classify : String → Sentiment) (sp u : String)
    (s : SpeakerSummary) (h : speakerSummary classify sp u = some s) :
    speakerLabels classify u ≠ []
      ∧ s = mkSpeakerSummary sp u (speakerLabels classify u) := by
  simp only [speakerSummary] at h
  split_ifs at h with hl
  constructor
  · intro hn
    rw [hn] at hl
    exact hl rfl
  · exact (Option.some_inj.mp h).symm

theorem speakerSummary_none (classify : String → Sentiment) (sp u : String)
    (h : speakerLabels classify u = []) : speakerSummary classify sp u = none := by
  simp [speakerSummary, h]

theorem analyze_fold_mem (classify : String → Sentiment) :
    ∀ (sT : List (String × String))
      (acc : List (String × SpeakerSummary) × List Sentiment)
      (sp : String) (s : SpeakerSummary),
      (sp, s) ∈ (sT.foldl (analyzeStep classify) acc).1 →
      (sp, s) ∈ acc.1
        ∨ ∃ u, (sp, u) ∈ sT ∧ speakerSummary classify sp u = some s := by
  intro sT
  induction sT with
  | nil => intro acc sp s h; exact Or.inl h
  | cons p rest ih =>
      intro acc sp s h
      have h2 := ih (analyzeStep classify acc p) sp s h
      rcases h2 with h2 | ⟨u, hu, hsum⟩
      · simp only [analyzeStep] at h2
        cases hss : speakerSummary classify p.1 p.2 with
        | none =>
            rw [hss] at h2
            exact Or.inl h2
        | some s2 =>
            rw [hss] at h2
            rcases dictInsert_mem _ _ _ _ h2 with h3 | h3
            · exact Or.inl h3
            · right
              have hsp : sp = p.1 := congrArg Prod.fst h3
              have hsv : s = s2 := congrArg Prod.snd h3
              refine ⟨p.2, ?_, ?_⟩
              · rw [hsp]
                exact List.mem_cons_self p rest
              · rw [hsp, hss, hsv]
      · exact Or.inr ⟨u, List.mem_cons_of_mem p hu, hsum⟩

theorem analyze_fold_all (classify : String → Sentiment) :
    ∀ (sT : List (String × String))
      (acc : List (String × SpeakerSummary) × List Sentiment),
      (sT.foldl (analyzeStep classify) acc).2
        = acc.2 ++ (sT.map (fun p => speakerLabels classify p.2)).flatten := by
  intro sT
  induction sT with
  | nil => intro acc; simp
  | cons p rest ih =>
      intro acc
      show (rest.foldl (analyzeStep classify) (analyzeStep classify acc p)).2 = _
      rw [ih]
      simp only [analyzeStep, List.map_cons, List.flatten_cons]
      rw [List.append_assoc]

theorem analyze_fold_none (classify : String → Sentiment) :
    ∀ (sT : List (String × String))
      (acc : List (String × SpeakerSummary) × List Sentiment),
      (∀ p ∈ sT, speakerLabels classify p.2 = []) →
      (sT.foldl (analyzeStep classify) acc).1 = acc.1 := by
  intro sT
  induction sT with
  | nil => intro acc _; rfl
  | cons p rest ih =>
      intro acc hall
      show (rest.foldl (analyzeStep classify) (analyzeStep classify acc p)).1 = _
      rw [ih _ (fun q hq => hall q (List.mem_cons_of_mem p hq))]
      simp only [analyzeStep,
        speakerSummary_none classify p.1 p.2 (hall p (List.mem_cons_self p rest))]

/-- C2: every speaker present in the per_speaker result has at least one
classified chunk, the four sentiment_counts values sum to the number of
non-whitespace chunks of that speaker, and the dominant sentiment has
the maximum count with ties broken by the order POSITIVE, NEGATIVE,
NEUTRAL, MIXED (first maximal label wins). -/
theorem speaker_summary_sound (classify : String → Sentiment)
    (speakers_text : List (String × String)) (sp : String) (s : SpeakerSummary)
    (h : (sp, s) ∈ (analyze_sentiment classify speakers_text).per_speaker) :
    ∃ utterances, (sp, utterances) ∈ speakers_text
      ∧ speakerLabels classify utterances ≠ []
      ∧ sumCounts s.sentiment_counts
          = ((pyChunks utterances).filter (fun ch => hasNonWhite ch)).length
      ∧ (∀ l : Sentiment,
          countsGet s.sentiment_counts l
            ≤ countsGet s.sentiment_counts s.dominant_sentiment)
      ∧ (∀ l : Sentiment,
          countsGet s.sentiment_counts l
              = countsGet s.sentiment_counts s.dominant_sentiment →
          sentIdx s.dominant_sentiment ≤ sentIdx l) := by
  simp only [analyze_sentiment] at h
  rcases analyze_fold_mem classify speakers_text ([], []) sp s h with hin | ⟨u, hu, hsum⟩
  · simp at hin
  · obtain ⟨hne, hs⟩ := speakerSummary_some classify sp u s hsum
    refine ⟨u, hu, hne, ?_, ?_, ?_⟩
    · rw [hs]
      show sumCounts (mkCounts (speakerLabels classify u)) = _
      rw [sumCounts_mkCounts, speakerLabels_eq, List.length_map]
    · intro l
      rw [hs]
      exact pyMax_ge _ l
    · intro l hl
      rw [hs] at hl ⊢
      exact pyMax_tie _ l hl

theorem speaker_summary_sound_witness :
    ("spk_0", mkSpeakerSummary "spk_0" "hello" [Sentiment.POSITIVE])
        ∈ (analyze_sentiment (fun _ => Sentiment.POSITIVE) [("spk_0", "hello")]).per_speaker
    ∧ ∃ utterances, ("spk_0", utterances) ∈ ([("spk_0", "hello")] : List (String × String))
        ∧ speakerLabels (fun _ => Sentiment.POSITIVE) utterances ≠ []
        ∧ sumCounts (mkSpeakerSummary "spk_0" "hello" [Sentiment.POSITIVE]).sentiment_counts
            = ((pyChunks utterances).filter (fun ch => hasNonWhite ch)).length
        ∧ (∀ l : Sentiment,
            countsGet (mkSpeakerSummary "spk_0" "hello" [Sentiment.POSITIVE]).sentiment_counts l
              ≤ countsGet (mkSpeakerSummary "spk_0" "hello" [Sentiment.POSITIVE]).sentiment_counts
                  (mkSpeakerSummary "spk_0" "hello" [Sentiment.POSITIVE]).dominant_sentiment)
        ∧ (∀ l : Sentiment,
            countsGet (mkSpeakerSummary "spk_0" "hello" [Sentiment.POSITIVE]).sentiment_counts l
                = countsGet (mkSpeakerSummary "spk_0" "hello" [Sentiment.POSITIVE]).sentiment_counts
                    (mkSpeakerSummary "spk_0" "hello" [Sentiment.POSITIVE]).dominant_sentiment →
            sentIdx (mkSpeakerSummary "spk_0" "hello" [Sentiment.POSITIVE]).dominant_sentiment
              ≤ sentIdx l) :=
  ⟨by decide,
   speaker_summary_sound (fun _ => Sentiment.POSITIVE) [("spk_0", "hello")] "spk_0"
     (mkSpeakerSummary "spk_0" "hello" [Sentiment.POSITIVE]) (by decide)⟩

/-- C4: a speaker all of whose entries yield zero non-whitespace chunks
is omitted from per_speaker; overall_sentiment is the maximum-count
label over the concatenation of all speakers chunk-label lists with the
same first-maximal tie-break; and when no label was produced at all,
per_speaker is empty and overall_sentiment is NEUTRAL. -/
theorem overall_sentiment_sound (classify : String → Sentiment)
    (speakers_text : List (String × String)) :
    (∀ sp : String,
      (∀ u, (sp, u) ∈ speakers_text → speakerLabels classify u = []) →
      ∀ s : SpeakerSummary,
        (sp, s) ∉ (analyze_sentiment classify speakers_text).per_speaker)
    ∧ ((speakers_text.map (fun p => speakerLabels classify p.2)).flatten = [] →
        (analyze_sentiment classify speakers_text).per_speaker = []
          ∧ (analyze_sentiment classify speakers_text).overall_sentiment = .NEUTRAL)
    ∧ ((speakers_text.map (fun p => speakerLabels classify p.2)).flatten ≠ [] →
        (∀ l : Sentiment,
          ((speakers_text.map (fun p => speakerLabels classify p.2)).flatten).count l
            ≤ ((speakers_text.map (fun p => speakerLabels classify p.2)).flatten).count
                (analyze_sentiment classify speakers_text).overall_sentiment)
        ∧ (∀ l : Sentiment,
            ((speakers_text.map (fun p => speakerLabels classify p.2)).flatten).count l
                = ((speakers_text.map (fun p => speakerLabels classify p.2)).flatten).count
                    (analyze_sentiment classify speakers_text).overall_sentiment →
            sentIdx (analyze_sentiment classify speakers_text).overall_sentiment
              ≤ sentIdx l)) := by
  have hall : (speakers_text.foldl (analyzeStep classify) ([], [])).2
      = (speakers_text.map (fun p => speakerLabels classify p.2)).flatten := by
    rw [analyze_fold_all]
    rfl
  refine ⟨?_, ?_, ?_⟩
  · intro sp hz s hmem
    simp only [analyze_sentiment] at hmem
    rcases analyze_fold_mem classify speakers_text ([], []) sp s hmem with hin | ⟨u, hu, hsum⟩
    · simp at hin
    · rw [speakerSummary_none classify sp u (hz u hu)] at hsum
      exact Option.noConfusion hsum
  · intro hflat
    have hz : ∀ p ∈ speakers_text, speakerLabels classify p.2 = [] := by
      intro p hp
      have hmem : speakerLabels classify p.2
          ∈ speakers_text.map (fun p => speakerLabels classify p.2) :=
        List.mem_map_of_mem _ hp
      by_contra hnn
      rcases List.exists_mem_of_ne_nil _ hnn with ⟨x, hx⟩
      have hxf : x ∈ (speakers_text.map (fun p => speakerLabels classify p.2)).flatten :=
        List.mem_flatten.mpr ⟨_, hmem, hx⟩
      rw [hflat] at hxf
      exact absurd hxf (List.not_mem_nil x)
    constructor
    · show (speakers_text.foldl (analyzeStep classify) ([], [])).1 = []
      rw [analyze_fold_none classify speakers_text ([], []) hz]
    · show (if (speakers_text.foldl (analyzeStep classify) ([], [])).2.isEmpty
          then Sentiment.NEUTRAL
          else pyMaxSentiment (mkCounts (speakers_text.foldl (analyzeStep classify) ([], [])).2))
        = Sentiment.NEUTRAL
      rw [hall, hflat]
      rfl
  · intro hne
    have hov : (analyze_sentiment classify speakers_text).overall_sentiment
        = pyMaxSentiment (mkCounts
            ((speakers_text.map (fun p => speakerLabels classify p.2)).flatten)) := by
      show (if (speakers_text.foldl (analyzeStep classify) ([], [])).2.isEmpty
          then Sentiment.NEUTRAL
          else pyMaxSentiment (mkCounts (speakers_text.foldl (analyzeStep classify) ([], [])).2))
        = _
      rw [hall, if_neg (by simpa [List.isEmpty_iff] using hne)]
    constructor
    · intro l
      rw [hov, ← countsGet_mkCounts, ← countsGet_mkCounts]
      exact pyMax_ge _ l
    · intro l hl
      rw [hov] at hl ⊢
      rw [← countsGet_mkCounts, ← countsGet_mkCounts] at hl
      exact pyMax_tie _ l hl

theorem overall_sentiment_sound_witness :
    ((analyze_sentiment (fun _ => Sentiment.POSITIVE) [("spk_0", " ")]).per_speaker = []
      ∧ (analyze_sentiment (fun _ => Sentiment.POSITIVE) [("spk_0", " ")]).overall_sentiment
          = Sentiment.NEUTRAL)
    ∧ ((([("spk_0", "hi")] : List (String × String)).map
          (fun p => speakerLabels (fun _ => Sentiment.POSITIVE) p.2)).flatten.count
            Sentiment.NEGATIVE
        ≤ (([("spk_0", "hi")] : List (String × String)).map
            (fun p => speakerLabels (fun _ => Sentiment.POSITIVE) p.2)).flatten.count
              (analyze_sentiment (fun _ => Sentiment.POSITIVE)
                [("spk_0", "hi")]).overall_sentiment) :=
  ⟨(overall_sentiment_sound (fun _ => Sentiment.POSITIVE) [("spk_0", " ")]).2.1 (by decide),
   ((overall_sentiment_sound (fun _ => Sentiment.POSITIVE) [("spk_0", "hi")]).2.2
      (by decide)).1 Sentiment.NEGATIVE⟩

/- Counterexample for C7: on a negative customer with the distress word
   debt, the tone_summary field of the produced summary is the bare
   label NEGATIVE, not the templated description computed by
   _analyze_customer_tone, which is stored under tone_description. -/
theorem tone_summary_not_templated :
    (analyze_sentiment (fun _ => Sentiment.NEGATIVE) [("spk_1", "debt")]).per_speaker
      = [("spk_1", mkSpeakerSummary "spk_1" "debt" [Sentiment.NEGATIVE])]
    ∧ (mkSpeakerSummary "spk_1" "debt" [Sentiment.NEGATIVE]).tone_summary = "NEGATIVE"
    ∧ analyze_customer_tone "debt"
        (mkSpeakerSummary "spk_1" "debt" [Sentiment.NEGATIVE]).dominant_sentiment
      = "Customer showed signs of financial distress and expressed concerns about their financial situation"
    ∧ (mkSpeakerSummary "spk_1" "debt" [Sentiment.NEGATIVE]).tone_summary
      ≠ analyze_customer_tone "debt"
          (mkSpeakerSummary "spk_1" "debt" [Sentiment.NEGATIVE]).dominant_sentiment
    ∧ (mkSpeakerSummary "spk_1" "debt" [Sentiment.NEGATIVE]).tone_description
      = analyze_customer_tone "debt"
          (mkSpeakerSummary "spk_1" "debt" [Sentiment.NEGATIVE]).dominant_sentiment := by
  refine ⟨by decide, by decide, by decide, by decide, by decide⟩

/-- C7 amended: for every speaker summary produced by analyze_sentiment,
the tone_description field is the deterministic templated description:
chosen by analyze_customer_tone for the speaker spk_1 and by
analyze_employee_tone keyed on the dominant sentiment for any other
speaker, with the customer template depending on the raw text only
through the distress and positive keyword matches; the tone_summary
field instead holds the dominant sentiment label string. -/
theorem tone_fields_corrected (classify : String → Sentiment)
    (speakers_text : List (String × String)) (sp : String) (s : SpeakerSummary)
    (h : (sp, s) ∈ (analyze_sentiment classify speakers_text).per_speaker) :
    (∃ utterances, (sp, utterances) ∈ speakers_text
      ∧ s.tone_description
          = (if sp = "spk_1" then analyze_customer_tone utterances s.dominant_sentiment
             else analyze_employee_tone s.dominant_sentiment)
      ∧ s.tone_summary = sentimentStr s.dominant_sentiment)
    ∧ (∀ (t1 t2 : String) (d : Sentiment),
        kwHit distress_keywords (pyLower t1) = kwHit distress_keywords (pyLower t2) →
        kwHit positive_keywords (pyLower t1) = kwHit positive_keywords (pyLower t2) →
        analyze_customer_tone t1 d = analyze_customer_tone t2 d) := by
  constructor
  · simp only [analyze_sentiment] at h
    rcases analyze_fold_mem classify speakers_text ([], []) sp s h with hin | ⟨u, hu, hsum⟩
    · simp at hin
    · obtain ⟨_, hs⟩ := speakerSummary_some classify sp u s hsum
      refine ⟨u, hu, ?_, ?_⟩
      · rw [hs]
        rfl
      · rw [hs]
        rfl
  · intro t1 t2 d h1 h2
    cases d
    · simp [analyze_customer_tone, h2]
    · simp [analyze_customer_tone, h1]
    · simp [analyze_customer_tone]
    · simp [analyze_customer_tone]

theorem tone_fields_corrected_witness :
    (∃ utterances, ("spk_1", utterances) ∈ ([("spk_1", "debt")] : List (String × String))
      ∧ (mkSpeakerSummary "spk_1" "debt" [Sentiment.NEGATIVE]).tone_description
          = (if "spk_1" = "spk_1" then
              analyze_customer_tone utterances
                (mkSpeakerSummary "spk_1" "debt" [Sentiment.NEGATIVE]).dominant_sentiment
             else analyze_employee_tone
                (mkSpeakerSummary "spk_1" "debt" [Sentiment.NEGATIVE]).dominant_sentiment)
      ∧ (mkSpeakerSummary "spk_1" "debt" [Sentiment.NEGATIVE]).tone_summary
          = sentimentStr (mkSpeakerSummary "spk_1" "debt" [Sentiment.NEGATIVE]).dominant_sentiment)
    ∧ (∀ (t1 t2 : String) (d : Sentiment),
        kwHit distress_keywords (pyLower t1) = kwHit distress_keywords (pyLower t2) →
        kwHit positive_keywords (pyLower t1) = kwHit positive_keywords (pyLower t2) →
        analyze_customer_tone t1 d = analyze_customer_tone t2 d) :=
  tone_fields_corrected (fun _ => Sentiment.NEGATIVE) [("spk_1", "debt")] "spk_1"
    (mkSpeakerSummary "spk_1" "debt" [Sentiment.NEGATIVE]) (by decide)

/- JSON-like Python values handled by the DynamoDB layer. Floats are
   carried as their repr strings (Decimal(str(f)) and str(Decimal) then
   exchange the same digit string); Decimal values likewise carry their
   digit strings. Mutual lists and dicts keep insertion order. -/
mutual
inductive DVal where
  | vnull
  | vbool (b : Bool)
  | vint (n : ℤ)
  | vfloat (r : String)
  | vdec (r : String)
  | vstr (s : String)
  | vlist (l : DList)
  | vdict (d : DDict)
inductive DList where
  | nil
  | cons (hd : DVal) (tl : DList)
inductive DDict where
  | nil
  | cons (key : String) (val : DVal) (tl : DDict)
end

/- Python truthiness; for float and Decimal repr strings the zero test
   inspects the digit string (only digit-zero mantissas are falsy). -/
def pyTruthy : DVal → Bool
  | .vnull => false
  | .vbool b => b
  | .vint n => n ≠ 0
  | .vfloat r => !(r = "0.0" || r = "-0.0")
  | .vdec r =>
      !((r.data.takeWhile (fun c => c ≠ 'e' ∧ c ≠ 'E')).all
          (fun c => c = '0' || c = '.' || c = '-' || c = '+'))
  | .vstr s => s ≠ ""
  | .vlist .nil => false
  | .vlist _ => true
  | .vdict .nil => false
  | .vdict _ => true

/- Dict primitives with Python dict semantics (first occurrence wins on
   lookup, assignment updates in place or appends). -/
def dictGet : DDict → String → Option DVal
  | .nil, _ => none
  | .cons k' v t, k => if k' = k then some v else dictGet t k

def hasKeyD : DDict → String → Bool
  | .nil, _ => false
  | .cons k' _ t, k => k' = k || hasKeyD t k

def setAllD : DDict → String → DVal → DDict
  | .nil, _, _ => .nil
  | .cons k' v' t, k, v => .cons k' (if k' = k then v else v') (setAllD t k v)

def appendD : DDict → String → DVal → DDict
  | .nil, k, v => .cons k v .nil
  | .cons a b t, k, v => .cons a b (appendD t k v)

def dictSet (d : DDict) (k : String) (v : DVal) : DDict :=
  if hasKeyD d k then setAllD d k v else appendD d k v

/- dynamodb.py lines 20-28: _float_to_decimal, Decimal(str(f)) keeps
   the repr digit string. -/
mutual
def floatToDecimal : DVal → DVal
  | .vfloat r => .vdec r
  | .vlist l => .vlist (floatToDecimalList l)
  | .vdict d => .vdict (floatToDecimalDict d)
  | v => v
def floatToDecimalList : DList → DList
  | .nil => .nil
  | .cons h t => .cons (floatToDecimal h) (floatToDecimalList t)
def floatToDecimalDict : DDict → DDict
  | .nil => .nil
  | .cons k v t => .cons k (floatToDecimal v) (floatToDecimalDict t)
end

/- dynamodb.py lines 86-94: json.loads(json.dumps(x, default=str),
   parse_float=Decimal). A float serializes to its repr and parses back
   as a Decimal with the same digits; a Decimal is not JSON
   serializable, so default=str turns it into its digit string; all
   other shapes round-trip unchanged. -/
mutual
def jsonDefaultStr : DVal → DVal
  | .vfloat r => .vdec r
  | .vdec r => .vstr r
  | .vlist l => .vlist (jsonDefaultStrList l)
  | .vdict d => .vdict (jsonDefaultStrDict d)
  | v => v
def jsonDefaultStrList : DList → DList
  | .nil => .nil
  | .cons h t => .cons (jsonDefaultStr h) (jsonDefaultStrList t)
def jsonDefaultStrDict : DDict → DDict
  | .nil => .nil
  | .cons k v t => .cons k (jsonDefaultStr v) (jsonDefaultStrDict t)
end

/- Python str.strip(). -/
def pyStrip (s : String) : String :=
  ((s.data.dropWhile isPySpace).reverse.dropWhile isPySpace).reverse.asString

/- Python split on a single character; empty input yields one empty
   piece, like str.split with an explicit separator. -/
def splitOnChar (c : Char) : List Char → List (List Char)
  | [] => [[]]
  | a :: t =>
      if a = c then [] :: splitOnChar c t
      else
        match splitOnChar c t with
        | [] => [[a]]
        | h :: r => (a :: h) :: r

/- dynamodb.py lines 30-53: _validate_transcript. -/
def validateTranscript (s : String) : String :=
  if s = "" then ""
  else
    let r := ((splitOnChar '\n' s.data).map List.asString).foldl
      (fun (acc : List String × String) line =>
        let line := pyStrip line
        if line = "" then acc
        else if "spk_0:".data.isPrefixOf line.data || "spk_1:".data.isPrefixOf line.data then
          (acc.1 ++ [line], (line.data.take 5).asString)
        else
          (acc.1 ++ [acc.2 ++ ": " ++ line],
           if acc.2 = "spk_0" then "spk_1" else "spk_0"))
      ([], "spk_0")
    joinSep "\n" r.1

/- dynamodb.py lines 59-62; a non-string transcript_text raises inside
   the try block, which the except clause rethrows: result none. -/
def validateStep (ad : DDict) : Option DDict :=
  match dictGet ad "transcript_text" with
  | none => some ad
  | some (.vstr s) => some (dictSet ad "transcript_text" (.vstr (validateTranscript s)))
  | some _ => none

/- The field not in analysis_data or not analysis_data[field] test of
   dynamodb.py line 79. -/
def missingOrFalsy (d : DDict) (k : String) : Bool :=
  match dictGet d k with
  | none => true
  | some v => !(pyTruthy v)

def speakersDefault : DVal :=
  .vdict (.cons "spk_0" (.vstr "") (.cons "spk_1" (.vstr "") .nil))

def sentimentDefault : DVal :=
  .vdict (.cons "per_speaker"
    (.vdict (.cons "spk_0" (.vdict (.cons "tone_summary" (.vstr "Analysis not available") .nil))
      (.cons "spk_1" (.vdict (.cons "tone_summary" (.vstr "Analysis not available") .nil)) .nil)))
    (.cons "timeline" (.vlist .nil)
      (.cons "overall_sentiment" (.vstr "NEUTRAL") .nil)))

/- dynamodb.py lines 64-80: the required_fields loop, in insertion
   order speakers_text then sentiment_analysis. -/
def requiredStep (ad : DDict) : DDict :=
  let ad1 := if missingOrFalsy ad "speakers_text"
    then dictSet ad "speakers_text" speakersDefault else ad
  if missingOrFalsy ad1 "sentiment_analysis"
    then dictSet ad1 "sentiment_analysis" sentimentDefault else ad1

/- dynamodb.py lines 86-94 applied to the sentiment_analysis entry. -/
def jsonStep (ad : DDict) : DDict :=
  match dictGet ad "sentiment_analysis" with
  | some v => dictSet ad "sentiment_analysis" (jsonDefaultStr v)
  | none => ad

/- {file_key, timestamp, **analysis_data} of dynamodb.py lines 97-101. -/
def mergeInto (base : DDict) : DDict → DDict
  | .nil => base
  | .cons k v t => mergeInto (dictSet base k v) t

/- dynamodb.py lines 55-109: store_analysis, producing the item passed
   to put_item (timestamp supplied by the caller clock). -/
def store_analysis (file_key timestamp : String) (analysis_data : DDict) : Option DDict :=
  match validateStep analysis_data with
  | none => none
  | some ad1 =>
      some (mergeInto
        (.cons "file_key" (.vstr file_key) (.cons "timestamp" (.vstr timestamp) .nil))
        (jsonStep (floatToDecimalDict (requiredStep ad1))))

/- Nested lookup through dict values along a key path. -/
def getPath (v : DVal) : List String → Option DVal
  | [] => some v
  | k :: rest =>
      match v with
      | .vdict d =>
          match dictGet d k with
          | some v2 => getPath v2 rest
          | none => none
      | _ => none

theorem dictGet_setAllD : ∀ (d : DDict) (k : String) (v : DVal),
    hasKeyD d k = true → dictGet (setAllD d k v) k = some v
  | .nil, k, v, h => by simp [hasKeyD] at h
  | .cons k' v' t, k, v, h => by
      by_cases hk : k' = k
      · simp [setAllD, dictGet, hk]
      · have ht : hasKeyD t k = true := by simpa [hasKeyD, hk] using h
        simp [setAllD, dictGet, hk, dictGet_setAllD t k v ht]

theorem dictGet_appendD : ∀ (d : DDict) (k : String) (v : DVal),
    hasKeyD d k = false → dictGet (appendD d k v) k = some v
  | .nil, k, v, _ => by simp [appendD, dictGet]
  | .cons a b t, k, v, h => by
      have ha : ¬(a = k) := by
        intro hc
        simp [hasKeyD, hc] at h
      have ht : hasKeyD t k = false := by simpa [hasKeyD, ha] using h
      simp [appendD, dictGet, ha, dictGet_appendD t k v ht]

theorem dictGet_dictSet_self (d : DDict) (k : String) (v : DVal) :
    dictGet (dictSet d k v) k = some v := by
  unfold dictSet
  split_ifs with h
  · exact dictGet_setAllD d k v h
  · exact dictGet_appendD d k v (by simpa using h)

theorem dictGet_setAllD_ne : ∀ (d : DDict) (k : String) (v : DVal) (k' : String),
    k ≠ k' → dictGet (setAllD d k v) k' = dictGet d k'
  | .nil, _, _, _, _ => rfl
  | .cons a b t, k, v, k', h => by
      by_cases hak : a = k'
      · have hk : ¬(a = k) := fun hc => h (hc ▸ hak)
        simp only [setAllD, dictGet, if_pos hak, if_neg hk]
      · simp only [setAllD, dictGet, if_neg hak]
        exact dictGet_setAllD_ne t k v k' h

theorem dictGet_appendD_ne : ∀ (d : DDict) (k : String) (v : DVal) (k' : String),
    k ≠ k' → dictGet (appendD d k v) k' = dictGet d k'
  | .nil, k, v, k', h => by simp [appendD, dictGet, h]
  | .cons a b t, k, v, k', h => by
      by_cases hak : a = k'
      · simp [appendD, dictGet, hak]
      · simp [appendD, dictGet, hak, dictGet_appendD_ne t k v k' h]

theorem dictGet_dictSet_ne (d : DDict) (k : String) (v : DVal) (k' : String)
    (h : k ≠ k') : dictGet (dictSet d k v) k' = dictGet d k' := by
  unfold dictSet
  split_ifs with hk
  · exact dictGet_setAllD_ne d k v k' h
  · exact dictGet_appendD_ne d k v k' h

theorem hasKeyD_setAllD : ∀ (d : DDict) (k : String) (v : DVal) (k' : String),
    hasKeyD (setAllD d k v) k' = hasKeyD d k'
  | .nil, _, _, _ => rfl
  | .cons a b t, k, v, k' => by
      simp [setAllD, hasKeyD, hasKeyD_setAllD t k v k']

theorem hasKeyD_appendD : ∀ (d : DDict) (k : String) (v : DVal) (k' : String),
    hasKeyD (appendD d k v) k' = (hasKeyD d k' || k = k')
  | .nil, k, v, k' => by simp [appendD, hasKeyD]
  | .cons a b t, k, v, k' => by
      simp [appendD, hasKeyD, hasKeyD_appendD t k v k', Bool.or_assoc]

theorem hasKeyD_dictSet_self (d : DDict) (k : String) (v : DVal) :
    hasKeyD (dictSet d k v) k = true := by
  unfold dictSet
  split_ifs with h
  · rw [hasKeyD_setAllD]; exact h
  · rw [hasKeyD_appendD]; simp

theorem dictGet_f2d : ∀ (d : DDict) (k : String),
    dictGet (floatToDecimalDict d) k = (dictGet d k).map floatToDecimal
  | .nil, _ => rfl
  | .cons a b t, k => by
      by_cases hak : a = k
      · simp [floatToDecimalDict, dictGet, hak]
      · simp [floatToDecimalDict, dictGet, hak, dictGet_f2d t k]

theorem hasKeyD_f2d : ∀ (d : DDict) (k : String),
    hasKeyD (floatToDecimalDict d) k = hasKeyD d k
  | .nil, _ => rfl
  | .cons a b t, k => by
      simp [floatToDecimalDict, hasKeyD, hasKeyD_f2d t k]

/- Every entry of the dict under the key carries the given value. -/
def allVals : DDict → String → DVal → Prop
  | .nil, _, _ => True
  | .cons k' v' t, k, v => (k' = k → v' = v) ∧ allVals t k v

theorem allVals_setAllD : ∀ (d : DDict) (k : String) (v : DVal),
    allVals (setAllD d k v) k v
  | .nil, _, _ => trivial
  | .cons a b t, k, v => by
      refine ⟨?_, allVals_setAllD t k v⟩
      intro h
      simp [h]

theorem allVals_of_not_hasKey : ∀ (d : DDict) (k : String) (v : DVal),
    hasKeyD d k = false → allVals d k v
  | .nil, _, _, _ => trivial
  | .cons a b t, k, v, h => by
      have ha : ¬(a = k) := by
        intro hc
        simp [hasKeyD, hc] at h
      have ht : hasKeyD t k = false := by simpa [hasKeyD, ha] using h
      exact ⟨fun hc => absurd hc ha, allVals_of_not_hasKey t k v ht⟩

theorem allVals_appendD : ∀ (d : DDict) (k : String) (v : DVal),
    allVals d k v → allVals (appendD d k v) k v
  | .nil, k, v, _ => ⟨fun _ => rfl, trivial⟩
  | .cons a b t, k, v, h => ⟨h.1, allVals_appendD t k v h.2⟩

theorem allVals_dictSet (d : DDict) (k : String) (v : DVal) :
    allVals (dictSet d k v) k v := by
  unfold dictSet
  split_ifs with h
  · exact allVals_setAllD d k v
  · exact allVals_appendD d k v (allVals_of_not_hasKey d k v (by simpa using h))

theorem allVals_setAllD_ne : ∀ (d : DDict) (k : String) (v : DVal) (k' : String) (w : DVal),
    k' ≠ k → allVals d k v → allVals (setAllD d k' w) k v
  | .nil, _, _, _, _, _, _ => trivial
  | .cons a b t, k, v, k', w, hne, h => by
      refine ⟨?_, allVals_setAllD_ne t k v k' w hne h.2⟩
      intro hak
      have : ¬(a = k') := by
        intro hc
        exact hne (hc ▸ hak)
      simp [this]
      exact h.1 hak

theorem allVals_appendD_ne : ∀ (d : DDict) (k : String) (v : DVal) (k' : String) (w : DVal),
    k' ≠ k → allVals d k v → allVals (appendD d k' w) k v
  | .nil, k, v, k', w, hne, _ => ⟨fun hc => absurd hc hne, trivial⟩
  | .cons a b t, k, v, k', w, hne, h => ⟨h.1, allVals_appendD_ne t k v k' w hne h.2⟩

theorem allVals_dictSet_ne (d : DDict) (k : String) (v : DVal) (k' : String) (w : DVal)
    (hne : k' ≠ k) (h : allVals d k v) : allVals (dictSet d k' w) k v := by
  unfold dictSet
  split_ifs with hk
  · exact allVals_setAllD_ne d k v k' w hne h
  · exact allVals_appendD_ne d k v k' w hne h

theorem allVals_f2d : ∀ (d : DDict) (k : String) (v : DVal),
    allVals d k v → allVals (floatToDecimalDict d) k (floatToDecimal v)
  | .nil, _, _, _ => trivial
  | .cons a b t, k, v, h =>
      ⟨fun hak => congrArg floatToDecimal (h.1 hak), allVals_f2d t k v h.2⟩

theorem mergeInto_miss : ∀ (d : DDict) (base : DDict) (k : String),
    hasKeyD d k = false → dictGet (mergeInto base d) k = dictGet base k
  | .nil, _, _, _ => rfl
  | .cons a b t, base, k, h => by
      have ha : ¬(a = k) := by
        intro hc
        simp [hasKeyD, hc] at h
      have ht : hasKeyD t k = false := by simpa [hasKeyD, ha] using h
      show dictGet (mergeInto (dictSet base a b) t) k = _
      rw [mergeInto_miss t (dictSet base a b) k ht, dictGet_dictSet_ne base a b k ha]

theorem mergeInto_get : ∀ (d : DDict) (base : DDict) (k : String) (v : DVal),
    hasKeyD d k = true → allVals d k v →
    dictGet (mergeInto base d) k = some v
  | .nil, _, _, _, h, _ => by simp [hasKeyD] at h
  | .cons a b t, base, k, v, h, hall => by
      show dictGet (mergeInto (dictSet base a b) t) k = some v
      by_cases ht : hasKeyD t k = true
      · exact mergeInto_get t (dictSet base a b) k v ht hall.2
      · have h2 : a = k ∨ hasKeyD t k = true := by simpa [hasKeyD] using h
        have hak : a = k := h2.resolve_right ht
        rw [mergeInto_miss t (dictSet base a b) k (by simpa using ht), hak,
            dictGet_dictSet_self, hall.1 hak]

theorem hasKeyD_dictSet_other (d : DDict) (k : String) (v : DVal) (k' : String)
    (h : hasKeyD d k' = true) : hasKeyD (dictSet d k v) k' = true := by
  unfold dictSet
  split_ifs with hk
  · rw [hasKeyD_setAllD]; exact h
  · rw [hasKeyD_appendD]; simp [h]

theorem validateStep_get (ad ad1 : DDict) (h : validateStep ad = some ad1)
    (k : String) (hk : "transcript_text" ≠ k) : dictGet ad1 k = dictGet ad k := by
  unfold validateStep at h
  rcases hg : dictGet ad "transcript_text" with _ | v
  · rw [hg] at h
    rw [← Option.some_inj.mp h]
  · rw [hg] at h
    cases v
    case vstr s =>
      rw [← Option.some_inj.mp h, dictGet_dictSet_ne _ _ _ _ hk]
    all_goals exact Option.noConfusion h

theorem jsonStep_get_ne (d : DDict) (k : String) (hk : "sentiment_analysis" ≠ k) :
    dictGet (jsonStep d) k = dictGet d k := by
  unfold jsonStep
  rcases hg : dictGet d "sentiment_analysis" with _ | v
  · rfl
  · exact dictGet_dictSet_ne _ _ _ _ hk

theorem jsonStep_allVals_ne (d : DDict) (k : String) (v : DVal)
    (hk : "sentiment_analysis" ≠ k) (h : allVals d k v) : allVals (jsonStep d) k v := by
  unfold jsonStep
  rcases hg : dictGet d "sentiment_analysis" with _ | w
  · exact h
  · exact allVals_dictSet_ne _ _ _ _ _ hk h

theorem jsonStep_hasKey_ne (d : DDict) (k : String)
    (h : hasKeyD d k = true) : hasKeyD (jsonStep d) k = true := by
  unfold jsonStep
  rcases hg : dictGet d "sentiment_analysis" with _ | w
  · exact h
  · exact hasKeyD_dictSet_other _ _ _ _ h

theorem requiredStep_eq (ad : DDict) :
    requiredStep ad
      = if missingOrFalsy
            (if missingOrFalsy ad "speakers_text"
             then dictSet ad "speakers_text" speakersDefault else ad) "sentiment_analysis"
        then dictSet
            (if missingOrFalsy ad "speakers_text"
             then dictSet ad "speakers_text" speakersDefault else ad)
            "sentiment_analysis" sentimentDefault
        else (if missingOrFalsy ad "speakers_text"
              then dictSet ad "speakers_text" speakersDefault else ad) := rfl

/- Counterexample for C6: a truthy but partial sentiment_analysis value
   is stored as-is, so the stored record lacks
   sentiment_analysis.per_speaker and sentiment_analysis.overall_sentiment. -/
theorem store_analysis_missing_substructure :
    (store_analysis "file.mp3" "t0"
        (.cons "sentiment_analysis"
          (.vdict (.cons "timeline" (.vlist (.cons (.vint 1) .nil)) .nil)) .nil)).isSome
      = true
    ∧ getPath
        (.vdict ((store_analysis "file.mp3" "t0"
          (.cons "sentiment_analysis"
            (.vdict (.cons "timeline" (.vlist (.cons (.vint 1) .nil)) .nil)) .nil)).getD .nil))
        ["sentiment_analysis", "per_speaker"] = none
    ∧ getPath
        (.vdict ((store_analysis "file.mp3" "t0"
          (.cons "sentiment_analysis"
            (.vdict (.cons "timeline" (.vlist (.cons (.vint 1) .nil)) .nil)) .nil)).getD .nil))
        ["sentiment_analysis", "overall_sentiment"] = none := ⟨rfl, rfl, rfl⟩

/-- C6 amended: store_analysis guarantees the documented substructures
only when the corresponding top-level field of analysis_data is absent
or falsy; in that case the stored record carries the full fixed
fallback (Analysis not available tone summaries, empty timeline,
NEUTRAL overall sentiment, empty speaker texts). A present and truthy
sentiment_analysis or speakers_text value is stored as-is, even when it
lacks those substructures. -/
theorem store_analysis_defaults_corrected (file_key timestamp : String)
    (analysis_data r : DDict)
    (hstore : store_analysis file_key timestamp analysis_data = some r) :
    (missingOrFalsy analysis_data "sentiment_analysis" = true →
      getPath (.vdict r) ["sentiment_analysis", "per_speaker", "spk_0", "tone_summary"]
          = some (.vstr "Analysis not available")
      ∧ getPath (.vdict r) ["sentiment_analysis", "per_speaker", "spk_1", "tone_summary"]
          = some (.vstr "Analysis not available")
      ∧ getPath (.vdict r) ["sentiment_analysis", "timeline"] = some (.vlist .nil)
      ∧ getPath (.vdict r) ["sentiment_analysis", "overall_sentiment"]
          = some (.vstr "NEUTRAL"))
    ∧ (missingOrFalsy analysis_data "speakers_text" = true →
      getPath (.vdict r) ["speakers_text", "spk_0"] = some (.vstr "")
      ∧ getPath (.vdict r) ["speakers_text", "spk_1"] = some (.vstr "")) := by
  unfold store_analysis at hstore
  rcases hv : validateStep analysis_data with _ | ad1
  · rw [hv] at hstore
    exact Option.noConfusion hstore
  · rw [hv] at hstore
    have hr : r = mergeInto
        (.cons "file_key" (.vstr file_key) (.cons "timestamp" (.vstr timestamp) .nil))
        (jsonStep (floatToDecimalDict (requiredStep ad1))) :=
      (Option.some_inj.mp hstore).symm
    subst hr
    constructor
    · intro hsa
      have hsa1 : missingOrFalsy ad1 "sentiment_analysis" = true := by
        unfold missingOrFalsy at hsa ⊢
        rw [validateStep_get analysis_data ad1 hv "sentiment_analysis" (by decide)]
        exact hsa
      have hsa2 : missingOrFalsy
          (if missingOrFalsy ad1 "speakers_text"
           then dictSet ad1 "speakers_text" speakersDefault else ad1)
          "sentiment_analysis" = true := by
        split_ifs with h
        · unfold missingOrFalsy at hsa1 ⊢
          rw [dictGet_dictSet_ne _ _ _ _ (by decide)]
          exact hsa1
        · exact hsa1
      have hq : requiredStep ad1
          = dictSet (if missingOrFalsy ad1 "speakers_text"
                     then dictSet ad1 "speakers_text" speakersDefault else ad1)
              "sentiment_analysis" sentimentDefault := by
        rw [requiredStep_eq, if_pos hsa2]
      have hget3 : dictGet (floatToDecimalDict (requiredStep ad1)) "sentiment_analysis"
          = some sentimentDefault := by
        rw [dictGet_f2d, hq, dictGet_dictSet_self]
        rfl
      have hall3 : allVals (floatToDecimalDict (requiredStep ad1))
          "sentiment_analysis" sentimentDefault := by
        have h := allVals_f2d (requiredStep ad1) "sentiment_analysis" sentimentDefault
          (by rw [hq]; exact allVals_dictSet _ _ _)
        exact h
      have hj : jsonStep (floatToDecimalDict (requiredStep ad1))
          = dictSet (floatToDecimalDict (requiredStep ad1))
              "sentiment_analysis" sentimentDefault := by
        unfold jsonStep
        rw [hget3]
        rfl
      have hrg : dictGet (mergeInto
          (.cons "file_key" (.vstr file_key) (.cons "timestamp" (.vstr timestamp) .nil))
          (jsonStep (floatToDecimalDict (requiredStep ad1)))) "sentiment_analysis"
          = some sentimentDefault := by
        apply mergeInto_get
        · rw [hj]
          exact hasKeyD_dictSet_self _ _ _
        · rw [hj]
          exact allVals_dictSet _ _ _
      refine ⟨?_, ?_, ?_, ?_⟩ <;> (simp only [getPath, hrg]; rfl)
    · intro hst
      have hst1 : missingOrFalsy ad1 "speakers_text" = true := by
        unfold missingOrFalsy at hst ⊢
        rw [validateStep_get analysis_data ad1 hv "speakers_text" (by decide)]
        exact hst
      have hq1 : (if missingOrFalsy ad1 "speakers_text"
          then dictSet ad1 "speakers_text" speakersDefault else ad1)
          = dictSet ad1 "speakers_text" speakersDefault := if_pos hst1
      have hgetR : dictGet (requiredStep ad1) "speakers_text" = some speakersDefault := by
        rw [requiredStep_eq, hq1]
        split_ifs with h
        · rw [dictGet_dictSet_ne _ _ _ _ (by decide)]
          exact dictGet_dictSet_self _ _ _
        · exact dictGet_dictSet_self _ _ _
      have hallR : allVals (requiredStep ad1) "speakers_text" speakersDefault := by
        rw [requiredStep_eq, hq1]
        split_ifs with h
        · exact allVals_dictSet_ne _ _ _ _ _ (by decide) (allVals_dictSet _ _ _)
        · exact allVals_dictSet _ _ _
      have hkeyR : hasKeyD (requiredStep ad1) "speakers_text" = true := by
        rw [requiredStep_eq, hq1]
        split_ifs with h
        · exact hasKeyD_dictSet_other _ _ _ _ (hasKeyD_dictSet_self _ _ _)
        · exact hasKeyD_dictSet_self _ _ _
      have hget3 : dictGet (floatToDecimalDict (requiredStep ad1)) "speakers_text"
          = some speakersDefault := by
        rw [dictGet_f2d, hgetR]
        rfl
      have hall3 : allVals (floatToDecimalDict (requiredStep ad1))
          "speakers_text" speakersDefault := by
        have h := allVals_f2d (requiredStep ad1) "speakers_text" speakersDefault hallR
        exact h
      have hkey3 : hasKeyD (floatToDecimalDict (requiredStep ad1)) "speakers_text" = true := by
        rw [hasKeyD_f2d]
        exact hkeyR
      have hrg : dictGet (mergeInto
          (.cons "file_key" (.vstr file_key) (.cons "timestamp" (.vstr timestamp) .nil))
          (jsonStep (floatToDecimalDict (requiredStep ad1)))) "speakers_text"
          = some speakersDefault := by
        apply mergeInto_get
        · exact jsonStep_hasKey_ne _ _ hkey3
        · exact jsonStep_allVals_ne _ _ _ (by decide) hall3
      refine ⟨?_, ?_⟩ <;> (simp only [getPath, hrg]; rfl)

theorem store_analysis_defaults_corrected_witness :
    (getPath (.vdict ((store_analysis "file.mp3" "t0" .nil).getD .nil))
        ["sentiment_analysis", "per_speaker", "spk_0", "tone_summary"]
          = some (.vstr "Analysis not available")
      ∧ getPath (.vdict ((store_analysis "file.mp3" "t0" .nil).getD .nil))
          ["sentiment_analysis", "per_speaker", "spk_1", "tone_summary"]
          = some (.vstr "Analysis not available")
      ∧ getPath (.vdict ((store_analysis "file.mp3" "t0" .nil).getD .nil))
          ["sentiment_analysis", "timeline"] = some (.vlist .nil)
      ∧ getPath (.vdict ((store_analysis "file.mp3" "t0" .nil).getD .nil))
          ["sentiment_analysis", "overall_sentiment"] = some (.vstr "NEUTRAL"))
    ∧ (getPath (.vdict ((store_analysis "file.mp3" "t0" .nil).getD .nil))
          ["speakers_text", "spk_0"] = some (.vstr "")
      ∧ getPath (.vdict ((store_analysis "file.mp3" "t0" .nil).getD .nil))
          ["speakers_text", "spk_1"] = some (.vstr "")) :=
  ⟨(store_analysis_defaults_corrected "file.mp3" "t0" .nil
      ((store_analysis "file.mp3" "t0" .nil).getD .nil) rfl).1 rfl,
   (store_analysis_defaults_corrected "file.mp3" "t0" .nil
      ((store_analysis "file.mp3" "t0" .nil).getD .nil) rfl).2 rfl⟩
